import Mathlib

/-!
Verification of the history-store cursor core (`src/history/hs_cursor.c`) of the
WiredTiger storage engine against its natural-language specification.

The file shallowly embeds the functions of the source file the claims bear
on — `__wt_hs_row_search`, `__hs_cursor_position_int` /
`__wt_hs_cursor_position` and `__wt_hs_find_upd` — over an explicit model of the backing
ordered structure (a strictly sorted list of entries).  External collaborators
(the B-tree search primitives, the packed-key codec, scratch allocation, the
modify-vector, delta application) are modelled by their contracts; fallible
collaborator calls consult an explicit failure oracle so that every error path
of the source is reachable in the model.  Resource handling (scratch buffers,
delta-chain nodes, the internally opened cursor) is tracked in an explicit
accounting state threaded through the computation.
-/

namespace HS

/-- WiredTiger error code: item not found. -/
def WT_NOTFOUND : Int := -31803

/-- WiredTiger error code: generic non-specific error (stands in for any
non-not-found collaborator failure injected by the oracle). -/
def WT_ERROR : Int := -31802

/-- The "none" timestamp sentinel (`WT_TS_NONE`). -/
def WT_TS_NONE : Nat := 0

/-- The maximum timestamp (`WT_TS_MAX`), a 64-bit all-ones value. -/
def WT_TS_MAX : Nat := 2 ^ 64 - 1

/-- Maximum value of a 64-bit unsigned counter (`UINT64_MAX`). -/
def UINT64_MAX : Nat := 2 ^ 64 - 1

/-- The "no transaction" id (`WT_TXN_NONE`). -/
def WT_TXN_NONE : Nat := 0

section Positioning

variable {K : Type} [LinearOrder K]

/-- The backing ordered structure holds its raw keys in strictly ascending
order of the authoritative raw-key comparator (modelled by the linear order on
`K`). -/
def strictSorted : List K → Bool
  | [] => true
  | [_] => true
  | a :: b :: l => decide (a < b) && strictSorted (b :: l)

/-- Index of the last entry whose raw key compares ≤ the search key.  On a
strictly sorted store this is the greatest entry at-or-before the search key. -/
def idxLastLe : List K → K → Option Nat
  | [], _ => none
  | a :: l, k =>
    match idxLastLe l k with
    | some i => some (i + 1)
    | none => if a ≤ k then some 0 else none

/-- Index of the first entry whose raw key compares > the search key. -/
def idxFirstGt : List K → K → Option Nat
  | [], _ => none
  | a :: l, k => if k < a then some 0 else (idxFirstGt l k).map (· + 1)

/-- Contract of the external B-tree `search_near` collaborator: it lands on an
entry adjacent to the search key and reports `exact`, the sign of
(landing key − search key).  When neighbours exist on both sides of an absent
key the side taken is unspecified; the boolean `preferHigh` resolves that
choice, and the theorems below hold for either resolution. -/
def searchNear (l : List K) (k : K) (preferHigh : Bool) : Option (Nat × Int) :=
  match idxLastLe l k, idxFirstGt l k with
  | none, none => none
  | some i, none => some (i, if l.getD i k = k then 0 else -1)
  | none, some j => some (j, 1)
  | some i, some j =>
    if l.getD i k = k then some (i, 0)
    else if preferHigh then some (j, 1) else some (i, -1)

/-- The backward-stepping loop of `__hs_cursor_position_int` (hs_cursor.c lines
126–139): starting from the landing index, step `prev` repeatedly until the
current entry's raw key compares ≤ the saved search key; `WT_NOTFOUND` (here
`none`) when the walk exhausts the store. -/
def prevUntilLe (l : List K) (k : K) : Nat → Option Nat
  | 0 => none
  | i + 1 => if l.getD i k ≤ k then some i else prevUntilLe l k i

/-- Model of `__hs_cursor_position_int` (hs_cursor.c lines 94–150): build the
search key with counter `UINT64_MAX`, copy it aside, `search_near`, and if the
landing compares greater than the target walk `prev` until the cursor's raw key
compares ≤ the saved search key.  Returns the final cursor index, or `none` for
`WT_NOTFOUND`. -/
def hs_cursor_position_int (l : List K) (k : K) (preferHigh : Bool) : Option Nat :=
  match searchNear l k preferHigh with
  | none => none
  | some (i, exact) => if exact > 0 then prevUntilLe l k i else some i

end Positioning

/-- Raw encoded history-store key: the packed `(btree id, key bytes, start
timestamp, counter)` tuple of `WT_HS_KEY_FORMAT`, flattened to one sequence and
compared lexicographically — the raw-byte order is the authoritative one. -/
def encodeHSKey (btreeId : Nat) (key : List Nat) (ts counter : Nat) : List Nat :=
  btreeId :: (key ++ ts :: counter :: [])

/-- Transaction isolation levels of the external transaction manager. -/
inductive IsoLevel
  | readUncommitted
  | readCommitted
  | snapshot
deriving DecidableEq

/-- The slice of the session state this subsystem touches: the current
transaction isolation level. -/
structure Session where
  iso : IsoLevel
deriving DecidableEq

/-- Result of `__wt_hs_cursor_position`: the positioning result, the isolation
level in force while the internal positioning ran, and the session state
returned to the caller. -/
structure PositionOut where
  res : Option Nat
  isoDuring : IsoLevel
  sessionAfter : Session
deriving DecidableEq

/-- Model of `__wt_hs_cursor_position` (hs_cursor.c lines 161–171): run
`__hs_cursor_position_int` under `WT_WITH_TXN_ISOLATION(session,
WT_ISO_READ_UNCOMMITTED, ...)`, which installs the read-uncommitted level for
the duration of the call and restores the caller's level afterwards. -/
def hs_cursor_position {K : Type} [LinearOrder K] (s : Session) (l : List K) (k : K)
    (preferHigh : Bool) : PositionOut :=
  let sInner : Session := { s with iso := .readUncommitted }
  let r := hs_cursor_position_int l k preferHigh
  { res := r, isoDuring := sInner.iso, sessionAfter := { sInner with iso := s.iso } }

/-- Outcome of the page-confined `__wt_row_search` call on the cached leaf page
(an external collaborator): whether the leaf search produced a result, the
comparison of the found slot's key with the search key, the slot, and the
number of entries on the page. -/
structure LeafSearchRes where
  leafFound : Bool
  compare : Int
  slot : Nat
  pageEntries : Nat

/-- Which paths `__wt_hs_row_search` took: whether the localized (cached-page)
result was used, whether the cursor was reset, and whether a full search from
the root was performed. -/
structure RowSearchOut where
  usedLocal : Bool
  didReset : Bool
  didFullSearch : Bool
deriving DecidableEq

/-- Model of the cached-leaf-page logic of `__wt_hs_row_search` (hs_cursor.c
lines 15–65): with a cached page reference, attempt the localized search; keep
its result only if it found the leaf and is not a non-exact match landing on the
page's first or last slot; otherwise reset the cursor and do a full search. -/
def hs_row_search (cached : Option LeafSearchRes) : RowSearchOut :=
  match cached with
  | none => { usedLocal := false, didReset := false, didFullSearch := true }
  | some r =>
    let leafFound := r.leafFound &&
      !(decide (r.compare ≠ 0) && (decide (r.slot = 0) || decide (r.slot = r.pageEntries - 1)))
    if leafFound then { usedLocal := true, didReset := false, didFullSearch := false }
    else { usedLocal := false, didReset := true, didFullSearch := true }

/-- Byte strings, as unbounded byte lists. -/
abbrev Bytes := List Nat

/-- One unpacked modify operation (`WT_MODIFY`): replace `size` bytes at
`offset` with `data`. -/
structure WTModify where
  data : Bytes
  offset : Nat
  size : Nat
deriving DecidableEq

/-- Modelled from the spec: `__wt_modify_apply_item` is not part of this source
file; per the spec's external contract `applyDelta(format, baseBuffer,
deltaPayload)` a delta payload is a sequence of byte-range replace
instructions, each replacing `size` bytes at `offset` with `data`
(zero-padding when the base is shorter than `offset`). -/
def applyOneModify (base : Bytes) (m : WTModify) : Bytes :=
  (base.take m.offset ++ List.replicate (m.offset - base.length) 0)
    ++ m.data ++ base.drop (m.offset + m.size)

/-- Apply every replace instruction of one modify payload, in order. -/
def applyModifyOps (base : Bytes) (ops : List WTModify) : Bytes :=
  ops.foldl applyOneModify base

/-- Payload stored in a history-store record: either a full value
(`WT_UPDATE_STANDARD`) or a packed vector of reverse-delta modify operations
(`WT_UPDATE_MODIFY`).  Tombstones do not occur in the history store — they are
filtered out before insertion (asserted at hs_cursor.c line 259). -/
inductive HSPayload
  | standard (v : Bytes)
  | modifyOps (ops : List WTModify)
deriving DecidableEq

/-- Update types as read off a history-store record and as reported in
`WT_UPDATE_VALUE` (`WT_UPDATE_INVALID`, `WT_UPDATE_MODIFY`,
`WT_UPDATE_STANDARD`). -/
inductive WTUpdateType
  | invalid
  | modify
  | standard
deriving DecidableEq

/-- The update type a record's payload reports through `get_value`. -/
def HSPayload.updType : HSPayload → WTUpdateType
  | .standard _ => .standard
  | .modifyOps _ => .modify

/-- The modify operations of a payload (empty for a standard payload). -/
def HSPayload.opsOf : HSPayload → List WTModify
  | .standard _ => []
  | .modifyOps o => o

/-- One history-store entry: the composite key fields and the value fields
(stop durable timestamp, durable timestamp, update type, payload). -/
structure HSEntry where
  btreeId : Nat
  key : Bytes
  ts : Nat
  counter : Nat
  stopDurableTs : Nat
  durableTs : Nat
  payload : HSPayload
deriving DecidableEq

/-- `WT_UPDATE_VALUE` as filled in by `__wt_hs_find_upd`: the value buffer
(`none` when never written), the start time-window fields, the update type,
and the caller's `skip_buf` hint. -/
structure WTUpdateValue where
  buf : Option Bytes
  durableStartTs : Nat
  startTxn : Nat
  type : WTUpdateType
  skipBuf : Bool
deriving DecidableEq

/-- Failure oracle for fallible external collaborator calls: the call numbered
`n` fails (with `WT_ERROR`) exactly when `orc n = true`. -/
abbrev Oracle := Nat → Bool

/-- The all-successful oracle. -/
def okOracle : Oracle := fun _ => false

/-- Which buffer a buffer-pointer variable of `__wt_hs_find_upd` refers to:
nothing, the scratch buffer allocated by the call, or the caller's on-disk
buffer. -/
inductive BufRef
  | null
  | scr
  | disk
deriving DecidableEq

/-- Resource-accounting and trace state threaded through `__wt_hs_find_upd`:
the oracle call counter, scratch-buffer and delta-chain-node accounting, the
cursor open/close state, the `WT_CURSTD_HS_READ_COMMITTED` visibility-bypass
flag together with a record of its value when the delta-chain walk was entered,
the store entry that provided the base value of a delta chain (if any), and
the return code as it stood when the final cursor close ran. -/
structure FindSt where
  calls : Nat
  scrAlloc : Nat
  scrFree : Nat
  diskFreed : Bool
  chainAlloc : Nat
  chainLive : Nat
  chainFree : Nat
  pendingNode : Bool
  cursorOpened : Bool
  cursorClosed : Bool
  hsReadFlag : Bool
  walkFlagAtEntry : Option Bool
  baseEntryFound : Option HSEntry
  retAtClose : Int
deriving DecidableEq

/-- The state at the top of `__wt_hs_find_upd`. -/
def initSt : FindSt :=
  { calls := 0, scrAlloc := 0, scrFree := 0, diskFreed := false,
    chainAlloc := 0, chainLive := 0, chainFree := 0, pendingNode := false,
    cursorOpened := false, cursorClosed := false, hsReadFlag := false,
    walkFlagAtEntry := none, baseEntryFound := none, retAtClose := 0 }

/-- Advance the oracle call counter by one (one collaborator call made). -/
def FindSt.step (st : FindSt) : FindSt := { st with calls := st.calls + 1 }

/-- Model of `__wt_scr_free` applied to a buffer pointer: free the scratch
buffer, free nothing, or free the caller's on-disk buffer (never reached by
this code, which the theorems establish). -/
def scrFreeOp (st : FindSt) (b : BufRef) : FindSt :=
  match b with
  | .null => st
  | .scr => { st with scrFree := st.scrFree + 1 }
  | .disk => { st with diskFreed := true }

/-- Modelled from the spec: the history-store cursor opened by `__wt_curhs_open`
is not part of this source file; with a full 4-part key set it confines its
positioning and stepping to the entries whose btree id and record key equal the
ones in the set key (spec §8, positioning correctness: "among entries with
(table,key)==(tid,k)"). -/
def matchingEntries (store : List HSEntry) (btreeId : Nat) (key : Bytes) : List HSEntry :=
  store.filter (fun e => e.btreeId == btreeId && e.key == key)

/-- Does an entry's (timestamp, counter) pair lie at-or-before the search
target `(readTs, UINT64_MAX)` in the lexicographic order of the composite
key? -/
def entryLeTarget (e : HSEntry) (readTs : Nat) : Bool :=
  decide (e.ts < readTs) || (decide (e.ts = readTs) && decide (e.counter ≤ UINT64_MAX))

/-- Modelled from the spec: `__wt_hs_cursor_search_near_before` is not part of
this source file; per spec §4.1/§8 it positions the history-store cursor on the
matching entry whose (timestamp, counter) is the greatest one at-or-before the
target, returning `WT_NOTFOUND` when no such entry exists.  Returns the entry
found together with the matching entries after it — the ones a subsequent
`next` will visit. -/
def positionAtOrBefore : List HSEntry → Nat → Option (HSEntry × List HSEntry)
  | [], _ => none
  | e :: rest, readTs =>
    match positionAtOrBefore rest readTs with
    | some r => some r
    | none => if entryLeTarget e readTs then some (e, rest) else none

/-- Result of the delta-chain walk loop of `__wt_hs_find_upd` (lines 286–314):
either a base value was reached — with a flag telling whether it is the on-disk
fallback, the store entry providing it (when it is not the fallback), the stack
of pushed modify payloads (most recently pushed first) and the resulting
state — or a collaborator call failed. -/
inductive WalkRes
  | ok (base : Bytes) (fromDisk : Bool) (baseEntry : Option HSEntry)
      (stack : List (List WTModify)) (st : FindSt)
  | fail (code : Int) (st : FindSt)

/-- One iteration prelude of the delta-chain walk loop (lines 287–296):
allocate an update node for the current modify (`__wt_upd_alloc`), push it on
the modify vector (`__wt_modify_vector_push`; on a push failure the allocated
node is still held in `mod_upd` and is freed by the cleanup block), then make
the `next` call on the cursor.  Returns the error state on a collaborator
failure, the advanced state otherwise. -/
def walkPush (orc : Oracle) (st : FindSt) : Sum (Int × FindSt) FindSt :=
  -- __wt_upd_alloc: on failure nothing was allocated
  if orc st.calls then .inl (WT_ERROR, st.step)
  else
    let st1 := { st.step with chainAlloc := st.chainAlloc + 1, pendingNode := true }
    -- __wt_modify_vector_push
    if orc st1.calls then .inl (WT_ERROR, st1.step)
    else
      let st2 := { st1.step with chainLive := st1.chainLive + 1, pendingNode := false }
      -- hs_cursor->next
      if orc st2.calls then .inl (WT_ERROR, st2.step)
      else .inr st2.step

/-- The delta-chain walk loop (lines 286–314): while the current record is a
modify, allocate an update node holding it and push the node on the modify
vector, then advance the cursor with `next`; if `next` runs off the matching
entries (`WT_NOTFOUND`), fall back to the on-disk buffer as the base value and
treat it as a standard update; otherwise read the next record and continue. -/
def walkLoop (orc : Oracle) (onDisk : Bytes) :
    List WTModify → List HSEntry → FindSt → WalkRes
  | curOps, [], st =>
    match walkPush orc st with
    | .inl (c, stf) => .fail c stf
    | .inr st3 => .ok onDisk true none [curOps] st3
  | curOps, e :: rest, st =>
    match walkPush orc st with
    | .inl (c, stf) => .fail c stf
    | .inr st3 =>
      -- hs_cursor->get_value
      if orc st3.calls then .fail WT_ERROR st3.step
      else
        let st4 := st3.step
        match e.payload with
        | .standard v => .ok v false (some e) [curOps] st4
        | .modifyOps ops =>
          match walkLoop orc onDisk ops rest st4 with
          | .ok b fd be stck st5 => .ok b fd be (stck ++ [curOps]) st5
          | .fail c st5 => .fail c st5

/-- Result of the modify-squash loop (lines 316–320). -/
inductive ApplyRes
  | ok (v : Bytes) (st : FindSt)
  | fail (code : Int) (st : FindSt)

/-- One iteration of the modify-squash loop (lines 317–319) on the accounting
state: pop a node off the modify vector into `mod_upd`, make the
`__wt_modify_apply_item` call, and free the node; on an application failure the
popped node stays in `mod_upd` and is freed by the cleanup block instead. -/
def applyPop (orc : Oracle) (st : FindSt) : Sum (Int × FindSt) FindSt :=
  -- __wt_modify_vector_pop: the node is now held in mod_upd
  let st1 := { st with chainLive := st.chainLive - 1, pendingNode := true }
  -- __wt_modify_apply_item
  if orc st1.calls then .inl (WT_ERROR, st1.step)
  else
    let st2 := st1.step
    -- __wt_free_update_list
    .inr { st2 with chainFree := st2.chainFree + 1, pendingNode := false }

/-- The modify-squash loop (lines 316–320): pop each pushed modify node (most
recently pushed first), apply its replace instructions to the base buffer, and
free the popped node. -/
def applyLoop (orc : Oracle) : List (List WTModify) → Bytes → FindSt → ApplyRes
  | [], base, st => .ok base st
  | ops :: rest, base, st =>
    match applyPop orc st with
    | .inl (c, stf) => .fail c stf
    | .inr st3 => applyLoop orc rest (applyModifyOps base ops) st3

/-- Reverse-delta reconstruction: apply the collected modify payloads to a base
value, most recently pushed first (the found entry's payload last). -/
def squashStack (base : Bytes) (stack : List (List WTModify)) : Bytes :=
  stack.foldl applyModifyOps base

/-- The buffer reference the cleanup block will free: `orig_hs_value_buf` when
it is set, `hs_value` otherwise (lines 337–340). -/
def freedRef (hsVal orig : BufRef) : BufRef :=
  if orig ≠ BufRef.null then orig else hsVal

/-- Lines 337–348 of the cleanup block as a pure state transformation: free the
scratch buffer through whichever pointer owns it, free a node still held in
`mod_upd`, and pop and free the remaining modify vector. -/
def cleanupState (hsVal orig : BufRef) (st : FindSt) : FindSt :=
  let st1 := scrFreeOp st (freedRef hsVal orig)
  let st2 := if st1.pendingNode then
      { st1 with chainFree := st1.chainFree + 1, pendingNode := false } else st1
  { st2 with chainFree := st2.chainFree + st2.chainLive, chainLive := 0 }

/-- The shared cleanup block of `__wt_hs_find_upd` (lines 335–368): free the
scratch buffer through whichever of `orig_hs_value_buf` / `hs_value` owns it,
free any node still held in `mod_upd` and the remaining modify vector, fill in
the final update-value status (a clean miss becomes a non-error invalid result;
an error marks the result invalid), and close the internally opened cursor,
`WT_TRET`-merging a close failure into a zero return code. -/
def finishCall (orc : Oracle) (ret : Int) (uv : WTUpdateValue) (updFound : Bool)
    (hsVal orig : BufRef) (st : FindSt) : Int × WTUpdateValue × FindSt :=
  -- lines 337–348
  let st3 := cleanupState hsVal orig st
  -- lines 350–361: a clean miss and any error both mark the result invalid
  let uv1 := if ret = 0 then (if updFound then uv else { uv with type := WTUpdateType.invalid })
    else { uv with type := WTUpdateType.invalid }
  -- line 363: the status as asserted never to be WT_NOTFOUND
  let st4 := { st3 with retAtClose := ret }
  -- lines 365–366: close the cursor when it was opened
  if st4.cursorOpened then
    if orc st4.calls then
      ((if ret = 0 then WT_ERROR else ret), uv1, { st4.step with cursorClosed := true })
    else (ret, uv1, { st4.step with cursorClosed := true })
  else (ret, uv1, st4)

/-- Out-of-band record number (`WT_RECNO_OOB`): the row-store caller passes it
while supplying a key. -/
def WT_RECNO_OOB : Nat := 0

/-- Modelled from the spec: `__wt_vpack_uint` packing of a column-store record
number into a key buffer; only injectivity of the packed form matters here. -/
def packRecno (recno : Nat) : Bytes := [recno]

/-- The record key searched for: the row-store key as passed, or the packed
column-store record number (hs_cursor.c lines 219–229). -/
def effectiveKey (key? : Option Bytes) (recno : Nat) : Bytes :=
  match key? with
  | some k => k
  | none => packRecno recno

/-- The effective read timestamp (lines 242–243): a reader without a timestamp
(`WT_TS_NONE`) reads at the maximum timestamp, since a literal zero timestamp
would make the near-search land above every real entry and hide them. -/
def effectiveReadTs (readTs : Nat) : Nat :=
  if readTs = WT_TS_NONE then WT_TS_MAX else readTs

/-- Model of `__wt_hs_find_upd` (hs_cursor.c lines 186–369): open a
history-store cursor, position it at-or-before the effective read timestamp,
read the record found, and either report its metadata only (`skip_buf`), copy
its standard payload out, or walk and squash its reverse-delta chain; a
positioning miss is a non-error invalid result, and all scratch buffers, chain
nodes and the cursor are released through the shared cleanup block. -/
def hs_find_upd (orc : Oracle) (store : List HSEntry) (btreeId : Nat)
    (key? : Option Bytes) (recno : Nat) (readTs : Nat) (updIn : WTUpdateValue)
    (onDisk : Bytes) : Int × WTUpdateValue × FindSt :=
  let key := effectiveKey key? recno
  let st0 := initSt
  -- line 231: __wt_curhs_open
  if orc st0.calls then finishCall orc WT_ERROR updIn false .null .null st0.step
  else
    let st1 := { st0.step with cursorOpened := true }
    -- lines 245–246: set the 4-part key and search near-before
    if orc st1.calls then finishCall orc WT_ERROR updIn false .null .null st1.step
    else
      let st2 := st1.step
      match positionAtOrBefore (matchingEntries store btreeId key) (effectiveReadTs readTs) with
      | none => finishCall orc 0 updIn false .null .null st2   -- WT_NOTFOUND: goto done
      | some (e, after) =>
        -- line 253: __wt_scr_alloc for the history-store value
        if orc st2.calls then finishCall orc WT_ERROR updIn false .null .null st2.step
        else
          let st3 := { st2.step with scrAlloc := st2.scrAlloc + 1 }
          -- lines 254–255: get_value reads the record's metadata and payload
          if orc st3.calls then finishCall orc WT_ERROR updIn false .scr .null st3.step
          else
            let st4 := st3.step
            if updIn.skipBuf then
              -- lines 267–268 and 330–333: report the metadata only
              let uv := { updIn with
                durableStartTs := e.durableTs,
                startTxn := WT_TXN_NONE, type := e.payload.updType }
              finishCall orc 0 uv true .scr .null st4
            else
              match e.payload with
              | .standard v =>
                -- line 329: copy the value into the caller's buffer
                if orc st4.calls then finishCall orc WT_ERROR updIn true .scr .null st4.step
                else
                  let st5 := st4.step
                  let uv := { updIn with
                    buf := some v, durableStartTs := e.durableTs,
                    startTxn := WT_TXN_NONE, type := WTUpdateType.standard }
                  finishCall orc 0 uv true .scr .null st5
              | .modifyOps ops =>
                -- line 284: ignore transaction visibility while walking the chain
                let st5 := { st4 with hsReadFlag := true }
                let st6 := { st5 with walkFlagAtEntry := some st5.hsReadFlag }
                match walkLoop orc onDisk ops after st6 with
                | .fail code st7 => finishCall orc code updIn true .scr .null st7
                | .ok base fromDisk baseEntry stack st7 =>
                  let st7a := { st7 with baseEntryFound := baseEntry }
                  let hsVal := if fromDisk then BufRef.disk else BufRef.scr
                  let orig := if fromDisk then BufRef.scr else BufRef.null
                  match applyLoop orc stack base st7a with
                  | .fail code st8 => finishCall orc code updIn true hsVal orig st8
                  | .ok finalV st8 =>
                    -- line 329: copy the squashed value into the caller's buffer
                    if orc st8.calls then finishCall orc WT_ERROR updIn true hsVal orig st8.step
                    else
                      let st9 := st8.step
                      let uv := { updIn with
                        buf := some finalV, durableStartTs := e.durableTs,
                        startTxn := WT_TXN_NONE, type := WTUpdateType.standard }
                      finishCall orc 0 uv true hsVal orig st9

/-- Strict (timestamp, counter) lexicographic order between two history-store
entries of one (btree id, record key) group — the raw-key order restricted to
the group. -/
def tsCntLt (a e : HSEntry) : Prop :=
  a.ts < e.ts ∨ (a.ts = e.ts ∧ a.counter < e.counter)

instance (a e : HSEntry) : Decidable (tsCntLt a e) :=
  inferInstanceAs (Decidable (_ ∨ _))

/-- The entries of one (btree id, record key) group listed in strictly
ascending (timestamp, counter) order — the on-disk order of the store. -/
def groupSorted : List HSEntry → Bool
  | [] => true
  | [_] => true
  | a :: e :: l => decide (tsCntLt a e) && groupSorted (e :: l)

/-- Chain-node accounting invariant: every allocated node is freed, pushed on
the modify vector, or currently held in `mod_upd`. -/
def FindSt.balanced (st : FindSt) : Prop :=
  st.chainFree + st.chainLive + st.pendingNode.toNat = st.chainAlloc

instance (st : FindSt) : Decidable st.balanced :=
  inferInstanceAs (Decidable (_ = _))

/-- Number of live scratch buffers a buffer reference accounts for. -/
def scrRefCnt : BufRef → Nat
  | .scr => 1
  | _ => 0

/-- The fields of the accounting state that the walk and squash loops never
touch. -/
def FindSt.samePeriph (st stp : FindSt) : Prop :=
  stp.scrAlloc = st.scrAlloc ∧ stp.scrFree = st.scrFree ∧ stp.diskFreed = st.diskFreed ∧
  stp.cursorOpened = st.cursorOpened ∧ stp.cursorClosed = st.cursorClosed ∧
  stp.hsReadFlag = st.hsReadFlag ∧ stp.walkFlagAtEntry = st.walkFlagAtEntry ∧
  stp.baseEntryFound = st.baseEntryFound

/-- The conditions holding whenever `__wt_hs_find_upd` reaches its cleanup
block: node accounting balanced, cursor not yet closed, the on-disk buffer
never freed, exactly the live scratch buffers about to be freed, the freed
pointer never aliasing the on-disk buffer, a status that is never
`WT_NOTFOUND`, and the visibility-bypass flag recorded as set if the
delta-chain walk ran. -/
def goodPreClean (ret : Int) (hsVal orig : BufRef) (st : FindSt) : Prop :=
  st.balanced ∧ st.cursorClosed = false ∧ st.diskFreed = false ∧
  st.scrAlloc = st.scrFree + scrRefCnt (freedRef hsVal orig) ∧
  freedRef hsVal orig ≠ BufRef.disk ∧
  ret ≠ WT_NOTFOUND ∧
  (st.walkFlagAtEntry = none ∨ st.walkFlagAtEntry = some true)

instance (ret : Int) (hsVal orig : BufRef) (st : FindSt) :
    Decidable (goodPreClean ret hsVal orig st) :=
  inferInstanceAs (Decidable (_ ∧ _ ∧ _ ∧ _ ∧ _ ∧ _ ∧ _))

/-- The spec's scenario record key `K`. -/
def scnKey : Bytes := [75]

/-- The spec's scenario delta at timestamp 20: replace byte 0 with `x`. -/
def scnDelta1 : List WTModify := [⟨[120], 0, 1⟩]

/-- The spec's scenario delta at timestamp 30: append `!`. -/
def scnDelta2 : List WTModify := [⟨[33], 3, 0⟩]

/-- The spec's scenario store: for key `K`, `(ts=10, Standard, "abc")`,
`(ts=20, Modify, replace byte 0 with x)`, `(ts=30, Modify, append !)`. -/
def scnStore : List HSEntry :=
  [ { btreeId := 1, key := scnKey, ts := 10, counter := 0, stopDurableTs := 10,
      durableTs := 10, payload := .standard [97, 98, 99] },
    { btreeId := 1, key := scnKey, ts := 20, counter := 0, stopDurableTs := 20,
      durableTs := 20, payload := .modifyOps scnDelta1 },
    { btreeId := 1, key := scnKey, ts := 30, counter := 0, stopDurableTs := 30,
      durableTs := 30, payload := .modifyOps scnDelta2 } ]

/-- A caller-initialized `WT_UPDATE_VALUE`: empty buffer, no metadata, payload
requested. -/
def uvResolveIn : WTUpdateValue :=
  { buf := none, durableStartTs := 0, startTxn := 0, type := .invalid, skipBuf := false }

/-- A one-entry store used for concrete counterexamples and witnesses. -/
def cexStore : List HSEntry :=
  [ { btreeId := 2, key := [9], ts := 20, counter := 0, stopDurableTs := 0,
      durableTs := 20, payload := .standard [1, 2] } ]

/-- A two-entry store whose older entry is a modify and whose newer entry is a
standard value — a store-provided reverse-delta base. -/
def witStore : List HSEntry :=
  [ { btreeId := 3, key := [7], ts := 20, counter := 0, stopDurableTs := 0,
      durableTs := 20, payload := .modifyOps [⟨[120], 0, 1⟩] },
    { btreeId := 3, key := [7], ts := 30, counter := 0, stopDurableTs := 0,
      durableTs := 30, payload := .standard [97, 98] } ]

/-- A two-entry store holding only modify entries — every resolve of it must
fall back to the on-disk value as the base. -/
def witStoreAllModify : List HSEntry :=
  [ { btreeId := 4, key := [8], ts := 20, counter := 0, stopDurableTs := 0,
      durableTs := 20, payload := .modifyOps [⟨[120], 0, 1⟩] },
    { btreeId := 4, key := [8], ts := 30, counter := 0, stopDurableTs := 0,
      durableTs := 30, payload := .modifyOps [⟨[33], 2, 0⟩] } ]

/-- An oracle that fails exactly the sixth collaborator call — for a
single-entry standard resolve that call is the final cursor close. -/
def closeFailOracle : Oracle := fun n => decide (n = 5)

section PositioningLemmas

variable {K : Type} [LinearOrder K]

theorem strictSorted_cons {a : K} {l : List K} (h : strictSorted (a :: l) = true) :
    strictSorted l = true ∧ ∀ y ∈ l, a < y := by
  induction l generalizing a with
  | nil => exact ⟨rfl, by simp⟩
  | cons e t ih =>
    simp only [strictSorted, Bool.and_eq_true, decide_eq_true_eq] at h
    obtain ⟨hae, ht⟩ := h
    refine ⟨ht, ?_⟩
    intro y hy
    rcases List.mem_cons.mp hy with rfl | hyt
    · exact hae
    · exact lt_trans hae ((ih ht).2 y hyt)

theorem strictSorted_get?_lt {l : List K} (hs : strictSorted l = true) {i j : Nat} {x y : K}
    (hx : l.get? i = some x) (hy : l.get? j = some y) (hij : i < j) : x < y := by
  induction l generalizing i j with
  | nil => simp at hx
  | cons a t ih =>
    cases i with
    | zero =>
      simp only [List.get?_cons_zero, Option.some.injEq] at hx
      subst hx
      cases j with
      | zero => omega
      | succ j' =>
        simp only [List.get?_cons_succ] at hy
        exact (strictSorted_cons hs).2 y (List.get?_mem hy)
    | succ i' =>
      cases j with
      | zero => omega
      | succ j' =>
        simp only [List.get?_cons_succ] at hx hy
        exact ih (strictSorted_cons hs).1 hx hy (by omega)

theorem idxLastLe_none {l : List K} {k : K} (h : idxLastLe l k = none) :
    ∀ y ∈ l, ¬ y ≤ k := by
  induction l with
  | nil => simp
  | cons a t ih =>
    intro y hy
    unfold idxLastLe at h
    cases hrec : idxLastLe t k with
    | some i => rw [hrec] at h; simp at h
    | none =>
      rw [hrec] at h
      by_cases hak : a ≤ k
      · simp [hak] at h
      · rcases List.mem_cons.mp hy with rfl | hyt
        · exact hak
        · exact ih hrec y hyt

theorem idxLastLe_some {l : List K} {k : K} {i : Nat} (h : idxLastLe l k = some i) :
    ∃ x, l.get? i = some x ∧ x ≤ k ∧ ∀ j y, l.get? j = some y → i < j → ¬ y ≤ k := by
  induction l generalizing i with
  | nil => simp [idxLastLe] at h
  | cons a t ih =>
    unfold idxLastLe at h
    cases hrec : idxLastLe t k with
    | some i' =>
      rw [hrec] at h
      simp only [Option.some.injEq] at h
      subst h
      obtain ⟨x, hx, hxk, hafter⟩ := ih hrec
      refine ⟨x, by simpa using hx, hxk, ?_⟩
      intro j y hj hij
      cases j with
      | zero => omega
      | succ j' =>
        simp only [List.get?_cons_succ] at hj
        exact hafter j' y hj (by omega)
    | none =>
      rw [hrec] at h
      by_cases hak : a ≤ k
      · simp only [hak, if_pos] at h
        simp only [Option.some.injEq] at h
        subst h
        refine ⟨a, rfl, hak, ?_⟩
        intro j y hj hij
        cases j with
        | zero => omega
        | succ j' =>
          simp only [List.get?_cons_succ] at hj
          exact idxLastLe_none hrec y (List.get?_mem hj)
      · simp [hak] at h

theorem idxFirstGt_some {l : List K} {k : K} {j : Nat} (h : idxFirstGt l k = some j) :
    ∃ x, l.get? j = some x ∧ k < x := by
  induction l generalizing j with
  | nil => simp [idxFirstGt] at h
  | cons a t ih =>
    unfold idxFirstGt at h
    by_cases hka : k < a
    · simp only [hka, if_pos, Option.some.injEq] at h
      subst h
      exact ⟨a, rfl, hka⟩
    · rw [if_neg hka] at h
      cases hrec : idxFirstGt t k with
      | none => rw [hrec] at h; simp at h
      | some j' =>
        rw [hrec] at h
        simp only [Option.map_some', Option.some.injEq] at h
        subst h
        obtain ⟨x, hx, hkx⟩ := ih hrec
        exact ⟨x, by simpa using hx, hkx⟩

theorem prevUntilLe_exhausts {l : List K} {k : K} (h : ∀ y ∈ l, ¬ y ≤ k) :
    ∀ j, j ≤ l.length → prevUntilLe l k j = none := by
  intro j
  induction j with
  | zero => intro _; rfl
  | succ j' ih =>
    intro hj
    have hjlen : j' < l.length := by omega
    obtain ⟨y, hy⟩ : ∃ y, l.get? j' = some y := by
      rw [List.get?_eq_get hjlen]; exact ⟨_, rfl⟩
    unfold prevUntilLe
    have hgd : l.getD j' k = y := by
      show (l.get? j').getD k = y
      rw [hy]; rfl
    rw [hgd, if_neg (h y (List.get?_mem hy))]
    exact ih (by omega)

theorem prevUntilLe_lands {l : List K} {k : K} {i : Nat} {x : K}
    (hx : l.get? i = some x) (hxk : x ≤ k)
    (hbt : ∀ m y, l.get? m = some y → i < m → ¬ y ≤ k) :
    ∀ j, i < j → j ≤ l.length → prevUntilLe l k j = some i := by
  intro j
  induction j with
  | zero => omega
  | succ j' ih =>
    intro hij hjlen
    unfold prevUntilLe
    rcases Nat.lt_or_ge i j' with hlt | hge
    · have hjlen' : j' < l.length := by omega
      obtain ⟨y, hy⟩ : ∃ y, l.get? j' = some y := by
        rw [List.get?_eq_get hjlen']; exact ⟨_, rfl⟩
      have hgd : l.getD j' k = y := by
        show (l.get? j').getD k = y
        rw [hy]; rfl
      rw [hgd, if_neg (hbt j' y hy hlt)]
      exact ih hlt (by omega)
    · have hi : i = j' := by omega
      subst hi
      have hgd : l.getD i k = x := by
        show (l.get? i).getD k = x
        rw [hx]; rfl
      rw [hgd, if_pos hxk]

theorem hs_cursor_position_int_eq (l : List K) (k : K) (p : Bool)
    (hs : strictSorted l = true) :
    hs_cursor_position_int l k p = idxLastLe l k := by
  unfold hs_cursor_position_int searchNear
  cases hLe : idxLastLe l k with
  | none =>
    cases hGt : idxFirstGt l k with
    | none => rfl
    | some j =>
      obtain ⟨x, hx, _⟩ := idxFirstGt_some hGt
      have hjlen : j < l.length := List.get?_eq_some.mp hx |>.1
      simp only
      rw [if_pos (by norm_num)]
      exact prevUntilLe_exhausts (idxLastLe_none hLe) j (by omega)
  | some i =>
    obtain ⟨x, hx, hxk, hafter⟩ := idxLastLe_some hLe
    have hgd : l.getD i k = x := by
      show (l.get? i).getD k = x
      rw [hx]; rfl
    cases hGt : idxFirstGt l k with
    | none =>
      simp only [hgd]
      by_cases hxe : x = k
      · rw [if_pos hxe]
        try simp only
        rw [if_neg (by norm_num)]
      · rw [if_neg hxe]
        try simp only
        rw [if_neg (by norm_num)]
    | some j =>
      obtain ⟨z, hz, hkz⟩ := idxFirstGt_some hGt
      have hjlen : j < l.length := List.get?_eq_some.mp hz |>.1
      simp only [hgd]
      by_cases hxe : x = k
      · rw [if_pos hxe]
        try simp only
        rw [if_neg (by norm_num)]
      · rw [if_neg hxe]
        have hij : i < j := by
          by_contra hcon
          rcases Nat.lt_or_ge j i with hji | hji
          · exact absurd (lt_trans hkz (strictSorted_get?_lt hs hz hx hji)) (not_lt.mpr hxk)
          · have : i = j := by omega
            subst this
            rw [hx] at hz
            obtain rfl : x = z := by simpa using hz
            exact absurd hxk (not_le.mpr hkz)
        cases p with
        | true =>
          rw [if_pos rfl]
          try simp only
          rw [if_pos (by norm_num)]
          exact prevUntilLe_lands hx hxk hafter j hij (by omega)
        | false =>
          rw [if_neg (by simp)]
          try simp only
          rw [if_neg (by norm_num)]

theorem idxLastLe_greatest (l : List K) (k : K) (hs : strictSorted l = true) :
    (match idxLastLe l k with
     | some i => ∃ x, l.get? i = some x ∧ x ≤ k ∧ ∀ y ∈ l, y ≤ k → y ≤ x
     | none => ∀ y ∈ l, ¬ y ≤ k) := by
  cases hLe : idxLastLe l k with
  | none => exact idxLastLe_none hLe
  | some i =>
    obtain ⟨x, hx, hxk, hafter⟩ := idxLastLe_some hLe
    refine ⟨x, hx, hxk, ?_⟩
    intro y hy hyk
    obtain ⟨j, hj⟩ := List.mem_iff_get?.mp hy
    rcases Nat.lt_trichotomy j i with hji | rfl | hij
    · exact le_of_lt (strictSorted_get?_lt hs hj hx hji)
    · rw [hx] at hj
      have hxy : x = y := by simpa using hj
      exact le_of_eq hxy.symm
    · exact absurd hyk (hafter j y hj hij)

end PositioningLemmas

/-- Claim C1: for every store state and every target (tableId, key, timestamp),
`__hs_cursor_position_int` positions the cursor on the entry whose raw encoded
key is the greatest one less than or equal to the encoded search key
(tableId, key, timestamp, maximum counter) — after a near-search that lands
greater than the target it steps backward until the current entry's raw key
compares ≤ the saved copy of the search key — and it returns not-found exactly
when no entry with key ≤ the search key exists. -/
theorem position_int_lands_on_greatest_le (store : List (List Nat)) (btreeId : Nat)
    (key : List Nat) (ts : Nat) (preferHigh : Bool) (hs : strictSorted store = true) :
    (match hs_cursor_position_int store (encodeHSKey btreeId key ts UINT64_MAX) preferHigh with
     | some i => ∃ x, store.get? i = some x ∧ x ≤ encodeHSKey btreeId key ts UINT64_MAX ∧
         ∀ y ∈ store, y ≤ encodeHSKey btreeId key ts UINT64_MAX → y ≤ x
     | none => ∀ y ∈ store, ¬ y ≤ encodeHSKey btreeId key ts UINT64_MAX) := by
  rw [hs_cursor_position_int_eq store _ preferHigh hs]
  exact idxLastLe_greatest store _ hs

/-- Concrete instance of claim C1's theorem: a three-entry store searched for
(table 1, key [5], timestamp 15), landing on the entry at timestamp 10. -/
theorem position_int_lands_on_greatest_le_witness :
    strictSorted [encodeHSKey 1 [5] 10 0, encodeHSKey 1 [5] 20 0,
        encodeHSKey 1 [7] 10 0] = true ∧
    (match hs_cursor_position_int [encodeHSKey 1 [5] 10 0, encodeHSKey 1 [5] 20 0,
        encodeHSKey 1 [7] 10 0] (encodeHSKey 1 [5] 15 UINT64_MAX) true with
     | some i => ∃ x, [encodeHSKey 1 [5] 10 0, encodeHSKey 1 [5] 20 0,
           encodeHSKey 1 [7] 10 0].get? i = some x ∧
         x ≤ encodeHSKey 1 [5] 15 UINT64_MAX ∧
         ∀ y ∈ [encodeHSKey 1 [5] 10 0, encodeHSKey 1 [5] 20 0, encodeHSKey 1 [7] 10 0],
           y ≤ encodeHSKey 1 [5] 15 UINT64_MAX → y ≤ x
     | none => ∀ y ∈ [encodeHSKey 1 [5] 10 0, encodeHSKey 1 [5] 20 0,
           encodeHSKey 1 [7] 10 0], ¬ y ≤ encodeHSKey 1 [5] 15 UINT64_MAX) :=
  ⟨by decide, position_int_lands_on_greatest_le _ 1 [5] 15 true (by decide)⟩

/-- Claim C8: with a cached leaf-page reference, `__wt_hs_row_search` uses the
localized (page-confined) search result exactly when it is an exact match or a
non-exact match whose slot is neither the page's first nor its last slot; in
every other case the cursor is reset and a full search from the root is
performed instead. -/
theorem row_search_localized_accept (r : LeafSearchRes) :
    (hs_row_search (some r)).usedLocal
        = (r.leafFound && (decide (r.compare = 0) ||
            (!(decide (r.slot = 0)) && !(decide (r.slot = r.pageEntries - 1)))))
    ∧ (hs_row_search (some r)).didReset = !(hs_row_search (some r)).usedLocal
    ∧ (hs_row_search (some r)).didFullSearch = !(hs_row_search (some r)).usedLocal := by
  obtain ⟨lf, c, s, n⟩ := r
  simp only [hs_row_search]
  by_cases hc : c = 0 <;> by_cases h0 : s = 0 <;> by_cases hl : s = n - 1 <;>
    cases lf <;> simp [hc, h0, hl]

theorem cleanupState_proj (hsVal orig : BufRef) (st : FindSt) :
    (cleanupState hsVal orig st).calls = st.calls ∧
    (cleanupState hsVal orig st).cursorOpened = st.cursorOpened ∧
    (cleanupState hsVal orig st).cursorClosed = st.cursorClosed ∧
    (cleanupState hsVal orig st).chainAlloc = st.chainAlloc ∧
    (cleanupState hsVal orig st).walkFlagAtEntry = st.walkFlagAtEntry ∧
    (cleanupState hsVal orig st).baseEntryFound = st.baseEntryFound ∧
    (cleanupState hsVal orig st).hsReadFlag = st.hsReadFlag ∧
    (cleanupState hsVal orig st).scrAlloc = st.scrAlloc := by
  cases orig <;> cases hsVal <;> by_cases hp : st.pendingNode <;>
    simp [cleanupState, scrFreeOp, freedRef, hp]

theorem scrFreeOp_proj (st : FindSt) (b : BufRef) :
    (scrFreeOp st b).pendingNode = st.pendingNode ∧
    (scrFreeOp st b).chainFree = st.chainFree ∧
    (scrFreeOp st b).chainLive = st.chainLive ∧
    (scrFreeOp st b).chainAlloc = st.chainAlloc ∧
    (scrFreeOp st b).scrFree = st.scrFree + scrRefCnt b ∧
    (scrFreeOp st b).scrAlloc = st.scrAlloc := by
  cases b <;> simp [scrFreeOp, scrRefCnt]

theorem cleanupState_clean (hsVal orig : BufRef) (st : FindSt)
    (hb : st.balanced)
    (hscr : st.scrAlloc = st.scrFree + scrRefCnt (freedRef hsVal orig))
    (hdsk : freedRef hsVal orig ≠ BufRef.disk) :
    (cleanupState hsVal orig st).chainFree = (cleanupState hsVal orig st).chainAlloc ∧
    (cleanupState hsVal orig st).chainLive = 0 ∧
    (cleanupState hsVal orig st).pendingNode = false ∧
    (cleanupState hsVal orig st).scrFree = (cleanupState hsVal orig st).scrAlloc ∧
    (cleanupState hsVal orig st).diskFreed = st.diskFreed := by
  unfold FindSt.balanced at hb
  unfold cleanupState freedRef at *
  cases orig <;> cases hsVal <;>
    simp only [scrFreeOp, scrRefCnt, ne_eq, reduceCtorEq, not_false_eq_true,
      if_pos, if_neg, ite_true, ite_false, not_true_eq_false] at hscr hdsk ⊢ <;>
    first
    | exact absurd rfl hdsk
    | (by_cases hp : st.pendingNode <;> simp [hp] at hb ⊢ <;> omega)

theorem finishCall_updValue (orc : Oracle) (ret : Int) (uv : WTUpdateValue) (updFound : Bool)
    (hsVal orig : BufRef) (st : FindSt) :
    (finishCall orc ret uv updFound hsVal orig st).2.1
      = if ret = 0 then (if updFound then uv else { uv with type := WTUpdateType.invalid })
        else { uv with type := WTUpdateType.invalid } := by
  by_cases hco : (cleanupState hsVal orig st).cursorOpened <;>
    by_cases hor : orc (cleanupState hsVal orig st).calls <;>
    simp [finishCall, hco, hor]

theorem finishCall_ret (orc : Oracle) (ret : Int) (uv : WTUpdateValue) (updFound : Bool)
    (hsVal orig : BufRef) (st : FindSt) :
    (finishCall orc ret uv updFound hsVal orig st).1 = ret ∨
      ((finishCall orc ret uv updFound hsVal orig st).1 = WT_ERROR ∧ ret = 0) := by
  by_cases hco : (cleanupState hsVal orig st).cursorOpened
  · by_cases hor : orc (cleanupState hsVal orig st).calls
    · by_cases hr : ret = 0
      · exact Or.inr ⟨by simp [finishCall, hco, hor, hr], hr⟩
      · exact Or.inl (by simp [finishCall, hco, hor, hr])
    · exact Or.inl (by simp [finishCall, hco, hor])
  · exact Or.inl (by simp [finishCall, hco])

theorem finishCall_okOracle_ret (ret : Int) (uv : WTUpdateValue) (updFound : Bool)
    (hsVal orig : BufRef) (st : FindSt) :
    (finishCall okOracle ret uv updFound hsVal orig st).1 = ret := by
  by_cases hco : (cleanupState hsVal orig st).cursorOpened <;>
    simp [finishCall, hco, okOracle]

theorem finishCall_retAtClose (orc : Oracle) (ret : Int) (uv : WTUpdateValue)
    (updFound : Bool) (hsVal orig : BufRef) (st : FindSt) :
    (finishCall orc ret uv updFound hsVal orig st).2.2.retAtClose = ret := by
  by_cases hco : (cleanupState hsVal orig st).cursorOpened <;>
    by_cases hor : orc (cleanupState hsVal orig st).calls <;>
    simp [finishCall, hco, hor, FindSt.step]

theorem finishCall_trace (orc : Oracle) (ret : Int) (uv : WTUpdateValue)
    (updFound : Bool) (hsVal orig : BufRef) (st : FindSt) :
    (finishCall orc ret uv updFound hsVal orig st).2.2.baseEntryFound = st.baseEntryFound ∧
    (finishCall orc ret uv updFound hsVal orig st).2.2.walkFlagAtEntry = st.walkFlagAtEntry := by
  have hpj := cleanupState_proj hsVal orig st
  by_cases hco : (cleanupState hsVal orig st).cursorOpened <;>
    by_cases hor : orc (cleanupState hsVal orig st).calls <;>
    simp [finishCall, hco, hor, FindSt.step, hpj.2.2.2.2.2.1, hpj.2.2.2.2.1]

theorem finishCall_state (orc : Oracle) (ret : Int) (uv : WTUpdateValue) (updFound : Bool)
    (hsVal orig : BufRef) (st : FindSt) (h : goodPreClean ret hsVal orig st) :
    (finishCall orc ret uv updFound hsVal orig st).2.2.scrFree
        = (finishCall orc ret uv updFound hsVal orig st).2.2.scrAlloc ∧
    (finishCall orc ret uv updFound hsVal orig st).2.2.chainFree
        = (finishCall orc ret uv updFound hsVal orig st).2.2.chainAlloc ∧
    (finishCall orc ret uv updFound hsVal orig st).2.2.chainLive = 0 ∧
    (finishCall orc ret uv updFound hsVal orig st).2.2.pendingNode = false ∧
    (finishCall orc ret uv updFound hsVal orig st).2.2.diskFreed = false ∧
    (finishCall orc ret uv updFound hsVal orig st).2.2.cursorClosed
        = (finishCall orc ret uv updFound hsVal orig st).2.2.cursorOpened := by
  obtain ⟨hb, hcc, hdf, hscr, hdsk, -, -⟩ := h
  obtain ⟨hc1, hc2, hc3, hc4, hc5⟩ := cleanupState_clean hsVal orig st hb hscr hdsk
  have hpj := cleanupState_proj hsVal orig st
  by_cases hco : (cleanupState hsVal orig st).cursorOpened <;>
    by_cases hor : orc (cleanupState hsVal orig st).calls <;>
    simp [finishCall, hco, hor, FindSt.step, hc1, hc2, hc3, hc4,
      hc5.trans hdf, hpj.2.2.1.trans hcc]

theorem samePeriph_refl (st : FindSt) : st.samePeriph st :=
  ⟨rfl, rfl, rfl, rfl, rfl, rfl, rfl, rfl⟩

theorem samePeriph_trans {a e c : FindSt} (h1 : a.samePeriph e) (h2 : e.samePeriph c) :
    a.samePeriph c := by
  obtain ⟨x1, x2, x3, x4, x5, x6, x7, x8⟩ := h1
  obtain ⟨y1, y2, y3, y4, y5, y6, y7, y8⟩ := h2
  exact ⟨y1.trans x1, y2.trans x2, y3.trans x3, y4.trans x4, y5.trans x5,
    y6.trans x6, y7.trans x7, y8.trans x8⟩

theorem walkPush_state (orc : Oracle) (st : FindSt) (hb : st.balanced)
    (hp : st.pendingNode = false) :
    (match walkPush orc st with
     | .inl cs => st.samePeriph cs.2 ∧ cs.2.balanced ∧ cs.1 = WT_ERROR
     | .inr st3 => st.samePeriph st3 ∧ st3.balanced ∧ st3.pendingNode = false ∧
         st3.chainLive = st.chainLive + 1 ∧ st3.chainAlloc = st.chainAlloc + 1 ∧
         st3.chainFree = st.chainFree) := by
  unfold FindSt.balanced at hb
  rw [hp] at hb
  simp only [Bool.toNat_false, Nat.add_zero] at hb
  by_cases h1 : orc st.calls
  · simp [walkPush, h1, FindSt.samePeriph, FindSt.balanced, FindSt.step, hp] <;> omega
  · by_cases h2 : orc (st.calls + 1)
    · simp [walkPush, h1, h2, FindSt.samePeriph, FindSt.balanced, FindSt.step] <;> omega
    · by_cases h3 : orc (st.calls + 2)
      · simp [walkPush, h1, h2, h3, FindSt.samePeriph, FindSt.balanced, FindSt.step] <;>
          omega
      · simp [walkPush, h1, h2, h3, FindSt.samePeriph, FindSt.balanced, FindSt.step] <;>
          omega

theorem applyPop_state (orc : Oracle) (st : FindSt) (hb : st.balanced)
    (hp : st.pendingNode = false) (hl : 1 ≤ st.chainLive) :
    (match applyPop orc st with
     | .inl cs => st.samePeriph cs.2 ∧ cs.2.balanced ∧ cs.1 = WT_ERROR
     | .inr st3 => st.samePeriph st3 ∧ st3.balanced ∧ st3.pendingNode = false ∧
         st3.chainLive = st.chainLive - 1) := by
  unfold FindSt.balanced at hb
  rw [hp] at hb
  simp only [Bool.toNat_false, Nat.add_zero] at hb
  by_cases h1 : orc st.calls
  · simp [applyPop, h1, FindSt.samePeriph, FindSt.balanced, FindSt.step] <;> omega
  · simp [applyPop, h1, FindSt.samePeriph, FindSt.balanced, FindSt.step] <;> omega

theorem walkLoop_state (orc : Oracle) (onDisk : Bytes) (curOps : List WTModify)
    (after : List HSEntry) (st : FindSt) (hb : st.balanced) (hp : st.pendingNode = false) :
    (match walkLoop orc onDisk curOps after st with
     | .ok _ _ _ stack stp => st.samePeriph stp ∧ stp.balanced ∧ stp.pendingNode = false ∧
         stp.chainLive = st.chainLive + stack.length
     | .fail c stp => st.samePeriph stp ∧ stp.balanced ∧ c = WT_ERROR) := by
  induction after generalizing curOps st with
  | nil =>
    have hps := walkPush_state orc st hb hp
    unfold walkLoop
    cases hw : walkPush orc st with
    | inl cs =>
      obtain ⟨c, stf⟩ := cs
      rw [hw] at hps
      exact hps
    | inr st3 =>
      rw [hw] at hps
      obtain ⟨hsp, hb3, hp3, hl3, -, -⟩ := hps
      exact ⟨hsp, hb3, hp3, by simpa using hl3⟩
  | cons e rest ih =>
    have hps := walkPush_state orc st hb hp
    unfold walkLoop
    cases hw : walkPush orc st with
    | inl cs =>
      obtain ⟨c, stf⟩ := cs
      rw [hw] at hps
      exact hps
    | inr st3 =>
      rw [hw] at hps
      obtain ⟨hsp3, hb3, hp3, hl3, -, -⟩ := hps
      try simp only
      by_cases hg : orc st3.calls
      · rw [if_pos hg]
        exact ⟨hsp3, hb3, rfl⟩
      · rw [if_neg hg]
        cases hpay : e.payload with
        | standard v => exact ⟨hsp3, hb3, hp3, by simpa using hl3⟩
        | modifyOps ops =>
          try simp only
          have hrec := ih ops st3.step hb3 hp3
          cases hw2 : walkLoop orc onDisk ops rest st3.step with
          | ok base fd be stck st5 =>
            rw [hw2] at hrec
            obtain ⟨hsp5, hb5, hp5, hl5⟩ := hrec
            have hsp5' : st3.samePeriph st5 := hsp5
            refine ⟨samePeriph_trans hsp3 hsp5', hb5, hp5, ?_⟩
            have h1 : st5.chainLive = st3.chainLive + stck.length := hl5
            have h2 : st3.chainLive = st.chainLive + 1 := hl3
            simp only [List.length_append, List.length_cons, List.length_nil]
            omega
          | fail c st5 =>
            rw [hw2] at hrec
            obtain ⟨hsp5, hb5, hc⟩ := hrec
            have hsp5' : st3.samePeriph st5 := hsp5
            exact ⟨samePeriph_trans hsp3 hsp5', hb5, hc⟩

theorem applyLoop_state (orc : Oracle) (stack : List (List WTModify)) (base : Bytes)
    (st : FindSt) (c : Nat) (hb : st.balanced) (hp : st.pendingNode = false)
    (hl : st.chainLive = stack.length + c) :
    (match applyLoop orc stack base st with
     | .ok v stp => st.samePeriph stp ∧ stp.balanced ∧ stp.pendingNode = false ∧
         stp.chainLive = c ∧ v = squashStack base stack
     | .fail cd stp => st.samePeriph stp ∧ stp.balanced ∧ cd = WT_ERROR) := by
  induction stack generalizing base st with
  | nil => exact ⟨samePeriph_refl st, hb, hp, by simpa using hl, rfl⟩
  | cons ops rest ih =>
    have hpop := applyPop_state orc st hb hp (by simp at hl; omega)
    unfold applyLoop
    cases hw : applyPop orc st with
    | inl cs =>
      obtain ⟨cd, stf⟩ := cs
      rw [hw] at hpop
      exact hpop
    | inr st3 =>
      rw [hw] at hpop
      obtain ⟨hsp3, hb3, hp3, hl3⟩ := hpop
      have hrec := ih (applyModifyOps base ops) st3 hb3 hp3
        (by simp only [List.length_cons] at hl; omega)
      try simp only
      cases hw2 : applyLoop orc rest (applyModifyOps base ops) st3 with
      | ok v st5 =>
        rw [hw2] at hrec
        obtain ⟨hsp5, hb5, hp5, hl5, hv⟩ := hrec
        exact ⟨samePeriph_trans hsp3 hsp5, hb5, hp5, hl5, hv⟩
      | fail cd st5 =>
        rw [hw2] at hrec
        obtain ⟨hsp5, hb5, hc⟩ := hrec
        exact ⟨samePeriph_trans hsp3 hsp5, hb5, hc⟩

theorem walkPush_okOracle (st : FindSt) :
    walkPush okOracle st = .inr { st with
      calls := st.calls + 3, chainAlloc := st.chainAlloc + 1,
      chainLive := st.chainLive + 1, pendingNode := false } := by
  rfl

theorem applyPop_okOracle (st : FindSt) :
    applyPop okOracle st = .inr { st with
      calls := st.calls + 1, chainLive := st.chainLive - 1,
      chainFree := st.chainFree + 1, pendingNode := false } := by
  rfl

theorem applyLoop_okOracle {stack : List (List WTModify)} {base : Bytes} {st : FindSt}
    {res : ApplyRes} (heq : applyLoop okOracle stack base st = res) :
    ∃ stp, res = .ok (squashStack base stack) stp := by
  induction stack generalizing base st res with
  | nil => exact ⟨st, by rw [← heq]; rfl⟩
  | cons ops rest ih =>
    subst heq
    unfold applyLoop
    rw [applyPop_okOracle]
    try simp only
    exact ih rfl

theorem walkLoop_fallback {onDisk : Bytes} {curOps : List WTModify} {after : List HSEntry}
    {st : FindSt} {res : WalkRes}
    (heq : walkLoop okOracle onDisk curOps after st = res)
    (hall : ∀ m ∈ after, m.payload.updType = WTUpdateType.modify) :
    ∃ stp, res = .ok onDisk true none
      ((after.map fun m => m.payload.opsOf).reverse ++ [curOps]) stp := by
  induction after generalizing curOps st res with
  | nil =>
    subst heq
    refine ⟨{ st with
      calls := st.calls + 3, chainAlloc := st.chainAlloc + 1,
      chainLive := st.chainLive + 1, pendingNode := false }, ?_⟩
    unfold walkLoop
    rw [walkPush_okOracle]
    rfl
  | cons e rest ih =>
    have he := hall e (by simp)
    cases hpay : e.payload with
    | standard v => rw [hpay] at he; simp [HSPayload.updType] at he
    | modifyOps ops =>
      obtain ⟨stp, hrec⟩ := @ih ops
        (({ st with
            calls := st.calls + 3, chainAlloc := st.chainAlloc + 1,
            chainLive := st.chainLive + 1, pendingNode := false } : FindSt).step)
        _ rfl (fun m hm => hall m (List.mem_cons_of_mem e hm))
      subst heq
      unfold walkLoop
      rw [walkPush_okOracle]
      try simp only
      rw [if_neg (by simp [okOracle])]
      try simp only
      rw [hpay]
      try simp only
      rw [hrec]
      try simp only
      exact ⟨stp, by simp [hpay, HSPayload.opsOf]⟩

theorem walkLoop_store_base {onDisk : Bytes} {curOps : List WTModify}
    {mods : List HSEntry} {e : HSEntry} {rest : List HSEntry} {v : Bytes}
    {st : FindSt} {res : WalkRes}
    (heq : walkLoop okOracle onDisk curOps (mods ++ e :: rest) st = res)
    (hmods : ∀ m ∈ mods, m.payload.updType = WTUpdateType.modify)
    (hbv : e.payload = .standard v) :
    ∃ stp, res = .ok v false (some e)
      ((mods.map fun m => m.payload.opsOf).reverse ++ [curOps]) stp := by
  induction mods generalizing curOps st res with
  | nil =>
    subst heq
    refine ⟨FindSt.step { st with
      calls := st.calls + 3, chainAlloc := st.chainAlloc + 1,
      chainLive := st.chainLive + 1, pendingNode := false }, ?_⟩
    simp only [List.nil_append]
    unfold walkLoop
    rw [walkPush_okOracle]
    try simp only
    rw [if_neg (by simp [okOracle])]
    try simp only
    rw [hbv]
    rfl
  | cons m mrest ih =>
    have hm := hmods m (by simp)
    cases hpay : m.payload with
    | standard w => rw [hpay] at hm; simp [HSPayload.updType] at hm
    | modifyOps ops =>
      obtain ⟨stp, hrec⟩ := @ih ops
        (({ st with
            calls := st.calls + 3, chainAlloc := st.chainAlloc + 1,
            chainLive := st.chainLive + 1, pendingNode := false } : FindSt).step)
        _ rfl (fun x hx => hmods x (List.mem_cons_of_mem m hx))
      subst heq
      simp only [List.cons_append]
      unfold walkLoop
      rw [walkPush_okOracle]
      try simp only
      rw [if_neg (by simp [okOracle])]
      try simp only
      rw [hpay]
      try simp only
      rw [hrec]
      try simp only
      exact ⟨stp, by simp [hpay, HSPayload.opsOf]⟩

theorem walkLoop_baseEntry {orc : Oracle} {onDisk : Bytes} {curOps : List WTModify}
    {after : List HSEntry} {st : FindSt} {b : Bytes} {fd : Bool} {be : Option HSEntry}
    {stack : List (List WTModify)} {stp : FindSt}
    (heq : walkLoop orc onDisk curOps after st = .ok b fd be stack stp) :
    be = none ∨ ∃ bb v, be = some bb ∧ bb ∈ after ∧ bb.payload = HSPayload.standard v := by
  induction after generalizing curOps st b fd be stack stp with
  | nil =>
    unfold walkLoop at heq
    cases hw : walkPush orc st with
    | inl cs =>
      obtain ⟨c, stf⟩ := cs
      rw [hw] at heq
      simp at heq
    | inr st3 =>
      rw [hw] at heq
      simp only [WalkRes.ok.injEq] at heq
      exact Or.inl heq.2.2.1.symm
  | cons e rest ih =>
    unfold walkLoop at heq
    cases hw : walkPush orc st with
    | inl cs =>
      obtain ⟨c, stf⟩ := cs
      rw [hw] at heq
      simp at heq
    | inr st3 =>
      rw [hw] at heq
      try simp only at heq
      by_cases hg : orc st3.calls
      · rw [if_pos hg] at heq
        simp at heq
      · rw [if_neg hg] at heq
        cases hpay : e.payload with
        | standard v =>
          rw [hpay] at heq
          try simp only at heq
          simp only [WalkRes.ok.injEq] at heq
          exact Or.inr ⟨e, v, heq.2.2.1.symm, by simp, hpay⟩
        | modifyOps ops =>
          rw [hpay] at heq
          try simp only at heq
          cases hw2 : walkLoop orc onDisk ops rest st3.step with
          | fail c st5 =>
            rw [hw2] at heq
            simp at heq
          | ok bx fdx bex stckx st5 =>
            rw [hw2] at heq
            simp only [WalkRes.ok.injEq] at heq
            rcases ih hw2 with hnone | ⟨bb, v, hbe, hmem, hstd⟩
            · exact Or.inl (heq.2.2.1 ▸ hnone)
            · exact Or.inr ⟨bb, v, heq.2.2.1 ▸ hbe, List.mem_cons_of_mem e hmem, hstd⟩

theorem walkLoop_ok_state {orc : Oracle} {onDisk : Bytes} {curOps : List WTModify}
    {after : List HSEntry} {st : FindSt} {b : Bytes} {fd : Bool} {be : Option HSEntry}
    {stack : List (List WTModify)} {stp : FindSt}
    (heq : walkLoop orc onDisk curOps after st = .ok b fd be stack stp)
    (hb : st.balanced) (hp : st.pendingNode = false) :
    st.samePeriph stp ∧ stp.balanced ∧ stp.pendingNode = false ∧
    stp.chainLive = st.chainLive + stack.length := by
  have h := walkLoop_state orc onDisk curOps after st hb hp
  rw [heq] at h
  exact h

theorem walkLoop_fail_state {orc : Oracle} {onDisk : Bytes} {curOps : List WTModify}
    {after : List HSEntry} {st : FindSt} {c : Int} {stp : FindSt}
    (heq : walkLoop orc onDisk curOps after st = .fail c stp)
    (hb : st.balanced) (hp : st.pendingNode = false) :
    st.samePeriph stp ∧ stp.balanced ∧ c = WT_ERROR := by
  have h := walkLoop_state orc onDisk curOps after st hb hp
  rw [heq] at h
  exact h

theorem applyLoop_ok_state {orc : Oracle} {stack : List (List WTModify)} {base : Bytes}
    {st : FindSt} {v : Bytes} {stp : FindSt}
    (heq : applyLoop orc stack base st = .ok v stp)
    (c : Nat) (hb : st.balanced) (hp : st.pendingNode = false)
    (hl : st.chainLive = stack.length + c) :
    st.samePeriph stp ∧ stp.balanced ∧ stp.pendingNode = false ∧
    stp.chainLive = c ∧ v = squashStack base stack := by
  have h := applyLoop_state orc stack base st c hb hp hl
  rw [heq] at h
  exact h

theorem applyLoop_fail_state {orc : Oracle} {stack : List (List WTModify)} {base : Bytes}
    {st : FindSt} {cd : Int} {stp : FindSt}
    (heq : applyLoop orc stack base st = .fail cd stp)
    (c : Nat) (hb : st.balanced) (hp : st.pendingNode = false)
    (hl : st.chainLive = stack.length + c) :
    st.samePeriph stp ∧ stp.balanced ∧ cd = WT_ERROR := by
  have h := applyLoop_state orc stack base st c hb hp hl
  rw [heq] at h
  exact h

theorem hs_find_upd_shape (orc : Oracle) (store : List HSEntry) (btreeId : Nat)
    (key? : Option Bytes) (recno : Nat) (readTs : Nat) (updIn : WTUpdateValue)
    (onDisk : Bytes) :
    ∃ ret uv updFound hsVal orig st,
      hs_find_upd orc store btreeId key? recno readTs updIn onDisk
        = finishCall orc ret uv updFound hsVal orig st ∧
      goodPreClean ret hsVal orig st := by
  unfold hs_find_upd
  simp only []
  split
  · exact ⟨_, _, _, _, _, _, rfl, by decide⟩
  · split
    · exact ⟨_, _, _, _, _, _, rfl, by decide⟩
    · split
      · exact ⟨_, _, _, _, _, _, rfl, by decide⟩
      · split
        · exact ⟨_, _, _, _, _, _, rfl, by decide⟩
        · split
          · exact ⟨_, _, _, _, _, _, rfl, by decide⟩
          · split
            · exact ⟨_, _, _, _, _, _, rfl, by decide⟩
            · split
              · split
                · exact ⟨_, _, _, _, _, _, rfl, by decide⟩
                · exact ⟨_, _, _, _, _, _, rfl, by decide⟩
              · split
                · rename_i code st7 hwalk
                  obtain ⟨hsp7, hb7, hfc⟩ := walkLoop_fail_state hwalk (by decide) (by decide)
                  refine ⟨_, _, _, _, _, _, rfl, hb7, hsp7.2.2.2.2.1.trans (by decide),
                    hsp7.2.2.1.trans (by decide), ?_, by decide, by rw [hfc]; decide,
                    Or.inr (hsp7.2.2.2.2.2.2.1.trans (by decide))⟩
                  rw [hsp7.1, hsp7.2.1]
                  decide
                · rename_i base fd be stack st7 hwalk
                  obtain ⟨hsp7, hb7, hp7, hl7⟩ := walkLoop_ok_state hwalk (by decide) (by decide)
                  have hlive : st7.chainLive = stack.length + 0 :=
                    hl7.trans (show 0 + stack.length = stack.length + 0 by simp)
                  cases fd
                  · split
                    · rename_i code8 st8 happ
                      obtain ⟨hsp8, hb8, hfc⟩ := applyLoop_fail_state happ 0 hb7 hp7 hlive
                      have hA : st8.scrAlloc = 1 := (hsp8.1.trans hsp7.1).trans (by decide)
                      have hF : st8.scrFree = 0 := (hsp8.2.1.trans hsp7.2.1).trans (by decide)
                      have hD : st8.diskFreed = false :=
                        (hsp8.2.2.1.trans hsp7.2.2.1).trans (by decide)
                      have hC : st8.cursorClosed = false :=
                        (hsp8.2.2.2.2.1.trans hsp7.2.2.2.2.1).trans (by decide)
                      have hW : st8.walkFlagAtEntry = some true :=
                        (hsp8.2.2.2.2.2.2.1.trans hsp7.2.2.2.2.2.2.1).trans (by decide)
                      refine ⟨_, _, _, _, _, _, rfl, hb8, hC, hD, ?_, by decide,
                        by rw [hfc]; decide, Or.inr hW⟩
                      rw [hA, hF]
                      decide
                    · rename_i v st8 happ
                      obtain ⟨hsp8, hb8, hp8, hl8, hv⟩ :=
                        applyLoop_ok_state happ 0 hb7 hp7 hlive
                      have hA : st8.scrAlloc = 1 := (hsp8.1.trans hsp7.1).trans (by decide)
                      have hF : st8.scrFree = 0 := (hsp8.2.1.trans hsp7.2.1).trans (by decide)
                      have hD : st8.diskFreed = false :=
                        (hsp8.2.2.1.trans hsp7.2.2.1).trans (by decide)
                      have hC : st8.cursorClosed = false :=
                        (hsp8.2.2.2.2.1.trans hsp7.2.2.2.2.1).trans (by decide)
                      have hW : st8.walkFlagAtEntry = some true :=
                        (hsp8.2.2.2.2.2.2.1.trans hsp7.2.2.2.2.2.2.1).trans (by decide)
                      have hA2 : st8.step.scrAlloc = 1 := hA
                      have hF2 : st8.step.scrFree = 0 := hF
                      split
                      · refine ⟨_, _, _, _, _, _, rfl, hb8, hC, hD, ?_, by decide,
                          by decide, Or.inr hW⟩
                        rw [hA2, hF2]
                        decide
                      · refine ⟨_, _, _, _, _, _, rfl, hb8, hC, hD, ?_, by decide,
                          by decide, Or.inr hW⟩
                        rw [hA2, hF2]
                        decide
                  · split
                    · rename_i code8 st8 happ
                      obtain ⟨hsp8, hb8, hfc⟩ := applyLoop_fail_state happ 0 hb7 hp7 hlive
                      have hA : st8.scrAlloc = 1 := (hsp8.1.trans hsp7.1).trans (by decide)
                      have hF : st8.scrFree = 0 := (hsp8.2.1.trans hsp7.2.1).trans (by decide)
                      have hD : st8.diskFreed = false :=
                        (hsp8.2.2.1.trans hsp7.2.2.1).trans (by decide)
                      have hC : st8.cursorClosed = false :=
                        (hsp8.2.2.2.2.1.trans hsp7.2.2.2.2.1).trans (by decide)
                      have hW : st8.walkFlagAtEntry = some true :=
                        (hsp8.2.2.2.2.2.2.1.trans hsp7.2.2.2.2.2.2.1).trans (by decide)
                      refine ⟨_, _, _, _, _, _, rfl, hb8, hC, hD, ?_, by decide,
                        by rw [hfc]; decide, Or.inr hW⟩
                      rw [hA, hF]
                      decide
                    · rename_i v st8 happ
                      obtain ⟨hsp8, hb8, hp8, hl8, hv⟩ :=
                        applyLoop_ok_state happ 0 hb7 hp7 hlive
                      have hA : st8.scrAlloc = 1 := (hsp8.1.trans hsp7.1).trans (by decide)
                      have hF : st8.scrFree = 0 := (hsp8.2.1.trans hsp7.2.1).trans (by decide)
                      have hD : st8.diskFreed = false :=
                        (hsp8.2.2.1.trans hsp7.2.2.1).trans (by decide)
                      have hC : st8.cursorClosed = false :=
                        (hsp8.2.2.2.2.1.trans hsp7.2.2.2.2.1).trans (by decide)
                      have hW : st8.walkFlagAtEntry = some true :=
                        (hsp8.2.2.2.2.2.2.1.trans hsp7.2.2.2.2.2.2.1).trans (by decide)
                      have hA2 : st8.step.scrAlloc = 1 := hA
                      have hF2 : st8.step.scrFree = 0 := hF
                      split
                      · refine ⟨_, _, _, _, _, _, rfl, hb8, hC, hD, ?_, by decide,
                          by decide, Or.inr hW⟩
                        rw [hA2, hF2]
                        decide
                      · refine ⟨_, _, _, _, _, _, rfl, hb8, hC, hD, ?_, by decide,
                          by decide, Or.inr hW⟩
                        rw [hA2, hF2]
                        decide

theorem finishCall_baseEntryFound (orc : Oracle) (ret : Int) (uv : WTUpdateValue)
    (updFound : Bool) (hsVal orig : BufRef) (st : FindSt) :
    (finishCall orc ret uv updFound hsVal orig st).2.2.baseEntryFound = st.baseEntryFound :=
  (finishCall_trace orc ret uv updFound hsVal orig st).1

theorem finishCall_walkFlag (orc : Oracle) (ret : Int) (uv : WTUpdateValue)
    (updFound : Bool) (hsVal orig : BufRef) (st : FindSt) :
    (finishCall orc ret uv updFound hsVal orig st).2.2.walkFlagAtEntry = st.walkFlagAtEntry :=
  (finishCall_trace orc ret uv updFound hsVal orig st).2

/-- Claim C9: after every resolve call, regardless of outcome (success,
not-found, or error injected at any collaborator call), every scratch buffer
allocated by the call is released, every pending delta-chain node is freed, the
internally opened history-store cursor is closed, and the caller's on-disk
fallback buffer is never freed even when it was aliased as the base value. -/
theorem resolve_releases_all_resources (orc : Oracle) (store : List HSEntry)
    (btreeId : Nat) (key? : Option Bytes) (recno : Nat) (readTs : Nat)
    (updIn : WTUpdateValue) (onDisk : Bytes) :
    (hs_find_upd orc store btreeId key? recno readTs updIn onDisk).2.2.scrFree
      = (hs_find_upd orc store btreeId key? recno readTs updIn onDisk).2.2.scrAlloc ∧
    (hs_find_upd orc store btreeId key? recno readTs updIn onDisk).2.2.chainFree
      = (hs_find_upd orc store btreeId key? recno readTs updIn onDisk).2.2.chainAlloc ∧
    (hs_find_upd orc store btreeId key? recno readTs updIn onDisk).2.2.chainLive = 0 ∧
    (hs_find_upd orc store btreeId key? recno readTs updIn onDisk).2.2.pendingNode = false ∧
    (hs_find_upd orc store btreeId key? recno readTs updIn onDisk).2.2.diskFreed = false ∧
    (hs_find_upd orc store btreeId key? recno readTs updIn onDisk).2.2.cursorClosed
      = (hs_find_upd orc store btreeId key? recno readTs updIn onDisk).2.2.cursorOpened := by
  obtain ⟨ret, uv, f, hv, o, st, heq, hgood⟩ :=
    hs_find_upd_shape orc store btreeId key? recno readTs updIn onDisk
  rw [heq]
  exact finishCall_state orc ret uv f hv o st hgood

/-- Claim C7: every read of history-store data runs under a relaxed visibility
mode — `__wt_hs_cursor_position` always executes its positioning under the
read-uncommitted isolation level and restores the caller's level afterwards,
and `__wt_hs_find_upd`'s delta-chain walk never runs without the
`WT_CURSTD_HS_READ_COMMITTED` visibility-bypass flag set (the recorded
flag-at-walk-entry is either absent — no walk — or true). -/
theorem relaxed_visibility_reads :
    (∀ (s : Session) (store : List (List Nat)) (k : List Nat) (preferHigh : Bool),
        (hs_cursor_position s store k preferHigh).isoDuring = IsoLevel.readUncommitted ∧
        (hs_cursor_position s store k preferHigh).sessionAfter = s) ∧
    (∀ (orc : Oracle) (store : List HSEntry) (btreeId : Nat) (key? : Option Bytes)
        (recno readTs : Nat) (updIn : WTUpdateValue) (onDisk : Bytes),
        (hs_find_upd orc store btreeId key? recno readTs updIn onDisk).2.2.walkFlagAtEntry
            = none ∨
        (hs_find_upd orc store btreeId key? recno readTs updIn onDisk).2.2.walkFlagAtEntry
            = some true) := by
  constructor
  · intro s store k preferHigh
    exact ⟨rfl, rfl⟩
  · intro orc store btreeId key? recno readTs updIn onDisk
    obtain ⟨ret, uv, f, hv, o, st, heq, hgood⟩ :=
      hs_find_upd_shape orc store btreeId key? recno readTs updIn onDisk
    rw [heq, finishCall_walkFlag]
    exact hgood.2.2.2.2.2.2

/-- Counterexample to claim C5 as stated: on a store whose only matching entry
is a standard value, with the collaborator failure injected exactly at the
final cursor close, the resolver propagates the error (nonzero status) yet the
result is not marked invalid. -/
theorem resolve_error_invalid_counterexample :
    (hs_find_upd closeFailOracle cexStore 2 (some [9]) WT_RECNO_OOB 25 uvResolveIn []).1 ≠ 0 ∧
    (hs_find_upd closeFailOracle cexStore 2 (some [9]) WT_RECNO_OOB 25 uvResolveIn []).2.1.type
      ≠ WTUpdateType.invalid := by
  decide

/-- Claim C5 (amended): resolve never returns `WT_NOTFOUND` as its final
status; with no collaborator failure a positioning miss returns success with
the result marked invalid/empty; and any error present when the final cursor
close runs marks the result invalid — an error raised by the cursor close
itself is still propagated, but leaves the result as computed. -/
theorem resolve_error_policy :
    (∀ (orc : Oracle) (store : List HSEntry) (btreeId : Nat) (key? : Option Bytes)
        (recno readTs : Nat) (updIn : WTUpdateValue) (onDisk : Bytes),
        (hs_find_upd orc store btreeId key? recno readTs updIn onDisk).1 ≠ WT_NOTFOUND ∧
        (hs_find_upd orc store btreeId key? recno readTs updIn onDisk).2.2.retAtClose
          ≠ WT_NOTFOUND) ∧
    (∀ (orc : Oracle) (store : List HSEntry) (btreeId : Nat) (key? : Option Bytes)
        (recno readTs : Nat) (updIn : WTUpdateValue) (onDisk : Bytes),
        (hs_find_upd orc store btreeId key? recno readTs updIn onDisk).2.2.retAtClose ≠ 0 →
        (hs_find_upd orc store btreeId key? recno readTs updIn onDisk).2.1.type
          = WTUpdateType.invalid) ∧
    (∀ (store : List HSEntry) (btreeId : Nat) (key? : Option Bytes)
        (recno readTs : Nat) (updIn : WTUpdateValue) (onDisk : Bytes),
        positionAtOrBefore (matchingEntries store btreeId (effectiveKey key? recno))
            (effectiveReadTs readTs) = none →
        (hs_find_upd okOracle store btreeId key? recno readTs updIn onDisk).1 = 0 ∧
        (hs_find_upd okOracle store btreeId key? recno readTs updIn onDisk).2.1.type
          = WTUpdateType.invalid) := by
  refine ⟨?_, ?_, ?_⟩
  · intro orc store btreeId key? recno readTs updIn onDisk
    obtain ⟨ret, uv, f, hv, o, st, heq, hgood⟩ :=
      hs_find_upd_shape orc store btreeId key? recno readTs updIn onDisk
    rw [heq]
    constructor
    · rcases finishCall_ret orc ret uv f hv o st with h | ⟨h, -⟩
      · rw [h]; exact hgood.2.2.2.2.2.1
      · rw [h]; decide
    · rw [finishCall_retAtClose]
      exact hgood.2.2.2.2.2.1
  · intro orc store btreeId key? recno readTs updIn onDisk hne
    obtain ⟨ret, uv, f, hv, o, st, heq, hgood⟩ :=
      hs_find_upd_shape orc store btreeId key? recno readTs updIn onDisk
    rw [heq, finishCall_retAtClose] at hne
    rw [heq, finishCall_updValue, if_neg hne]
  · intro store btreeId key? recno readTs updIn onDisk hpos
    constructor
    · unfold hs_find_upd
      simp only [okOracle, Bool.false_eq_true, if_false]
      rw [hpos]
      exact finishCall_okOracle_ret 0 updIn false BufRef.null BufRef.null _
    · unfold hs_find_upd
      simp only [okOracle, Bool.false_eq_true, if_false]
      rw [hpos, finishCall_updValue]
      simp

/-- Concrete instance of claim C5's amended theorem: with every collaborator
call failing (so the open itself errors), the result is marked invalid. -/
theorem resolve_error_policy_witness :
    (hs_find_upd (fun _ => true) [] 1 (some [3]) WT_RECNO_OOB 7 uvResolveIn []).2.1.type
      = WTUpdateType.invalid :=
  resolve_error_policy.2.1 (fun _ => true) [] 1 (some [3]) WT_RECNO_OOB 7 uvResolveIn []
    (by decide)

/-- Claim C4: for every store state, table id, record key, on-disk fallback and
failure oracle, a resolve call whose read timestamp is the none sentinel
returns exactly the same result — payload, kind, durable start timestamp,
status and resource trace — as one with the maximum timestamp. -/
theorem resolve_ts_none_as_max (orc : Oracle) (store : List HSEntry) (btreeId : Nat)
    (key? : Option Bytes) (recno : Nat) (updIn : WTUpdateValue) (onDisk : Bytes) :
    hs_find_upd orc store btreeId key? recno WT_TS_NONE updIn onDisk
      = hs_find_upd orc store btreeId key? recno WT_TS_MAX updIn onDisk := by
  have h : effectiveReadTs WT_TS_NONE = effectiveReadTs WT_TS_MAX := by
    norm_num [effectiveReadTs, WT_TS_NONE, WT_TS_MAX]
  unfold hs_find_upd
  rw [h]

theorem finishCall_chainAllocProj (orc : Oracle) (ret : Int) (uv : WTUpdateValue)
    (updFound : Bool) (hsVal orig : BufRef) (st : FindSt) :
    (finishCall orc ret uv updFound hsVal orig st).2.2.chainAlloc = st.chainAlloc := by
  have hpj := cleanupState_proj hsVal orig st
  by_cases hco : (cleanupState hsVal orig st).cursorOpened <;>
    by_cases hor : orc (cleanupState hsVal orig st).calls <;>
    simp [finishCall, hco, hor, FindSt.step, hpj.2.2.2.1]

theorem resolve_fallback_uv (store : List HSEntry) (btreeId : Nat) (key : Bytes)
    (readTs : Nat) (updIn : WTUpdateValue) (onDisk : Bytes) (e : HSEntry)
    (after : List HSEntry) (ops : List WTModify)
    (hskip : updIn.skipBuf = false)
    (hpos : positionAtOrBefore (matchingEntries store btreeId key) (effectiveReadTs readTs)
      = some (e, after))
    (hops : e.payload = HSPayload.modifyOps ops)
    (hall : ∀ m ∈ after, m.payload.updType = WTUpdateType.modify) :
    (hs_find_upd okOracle store btreeId (some key) WT_RECNO_OOB readTs updIn onDisk).2.1
      = { updIn with
          buf := some (squashStack onDisk
            ((after.map fun m => m.payload.opsOf).reverse ++ [ops])),
          durableStartTs := e.durableTs, startTxn := WT_TXN_NONE,
          type := WTUpdateType.standard } := by
  unfold hs_find_upd
  simp only [okOracle, Bool.false_eq_true, if_false, effectiveKey]
  rw [hpos]
  try simp only
  rw [hskip]
  simp only [Bool.false_eq_true, if_false]
  rw [hops]
  try simp only
  split
  · rename_i code st7 hwalk
    obtain ⟨stp, hcontra⟩ := walkLoop_fallback hwalk hall
    simp at hcontra
  · rename_i base fd be stack st7 hwalk
    obtain ⟨stp, hok⟩ := walkLoop_fallback hwalk hall
    simp only [WalkRes.ok.injEq] at hok
    obtain ⟨h1, h2, h3, h4, -⟩ := hok
    subst h1
    subst h2
    subst h3
    subst h4
    try simp only
    split
    · rename_i code8 st8 happ
      obtain ⟨stq, hcontra⟩ := applyLoop_okOracle happ
      simp at hcontra
    · rename_i v st8 happ
      obtain ⟨stq, hok2⟩ := applyLoop_okOracle happ
      simp only [ApplyRes.ok.injEq] at hok2
      obtain ⟨hv, -⟩ := hok2
      subst hv
      try simp only [okOracle, Bool.false_eq_true, if_false]
      rw [finishCall_updValue]
      simp [hskip]

theorem resolve_store_base_uv (store : List HSEntry) (btreeId : Nat) (key : Bytes)
    (readTs : Nat) (updIn : WTUpdateValue) (onDisk : Bytes) (e eb : HSEntry)
    (mods rest : List HSEntry) (ops : List WTModify) (v : Bytes)
    (hskip : updIn.skipBuf = false)
    (hpos : positionAtOrBefore (matchingEntries store btreeId key) (effectiveReadTs readTs)
      = some (e, mods ++ eb :: rest))
    (hops : e.payload = HSPayload.modifyOps ops)
    (hmods : ∀ m ∈ mods, m.payload.updType = WTUpdateType.modify)
    (hbv : eb.payload = HSPayload.standard v) :
    (hs_find_upd okOracle store btreeId (some key) WT_RECNO_OOB readTs updIn onDisk).2.1
      = { updIn with
          buf := some (squashStack v
            ((mods.map fun m => m.payload.opsOf).reverse ++ [ops])),
          durableStartTs := e.durableTs, startTxn := WT_TXN_NONE,
          type := WTUpdateType.standard } := by
  unfold hs_find_upd
  simp only [okOracle, Bool.false_eq_true, if_false, effectiveKey]
  rw [hpos]
  try simp only
  rw [hskip]
  simp only [Bool.false_eq_true, if_false]
  rw [hops]
  try simp only
  split
  · rename_i code st7 hwalk
    obtain ⟨stp, hcontra⟩ := walkLoop_store_base hwalk hmods hbv
    simp at hcontra
  · rename_i base fd be stack st7 hwalk
    obtain ⟨stp, hok⟩ := walkLoop_store_base hwalk hmods hbv
    simp only [WalkRes.ok.injEq] at hok
    obtain ⟨h1, h2, h3, h4, -⟩ := hok
    subst h1
    subst h2
    subst h3
    subst h4
    try simp only
    split
    · rename_i code8 st8 happ
      obtain ⟨stq, hcontra⟩ := applyLoop_okOracle happ
      simp at hcontra
    · rename_i v2 st8 happ
      obtain ⟨stq, hok2⟩ := applyLoop_okOracle happ
      simp only [ApplyRes.ok.injEq] at hok2
      obtain ⟨hv, -⟩ := hok2
      subst hv
      try simp only [okOracle, Bool.false_eq_true, if_false]
      rw [finishCall_updValue]
      simp [hskip]

/-- Counterexample to claim C2 as stated: on the spec's own scenario store with
on-disk value "abc", resolve at read timestamp 25 does not yield "xbc" — the
stored modifies are reverse deltas applied onto the newer on-disk base, so the
call yields "xbc!" instead. -/
theorem resolve_forward_delta_counterexample :
    ¬ ((hs_find_upd okOracle scnStore 1 (some scnKey) WT_RECNO_OOB 25 uvResolveIn
        [97, 98, 99]).2.1.buf = some [120, 98, 99]) := by
  decide

/-- Claim C2 (amended): history-store modifies are reverse deltas.  Resolving
a modify entry pushes it and every following modify (walking with next, toward
newer entries) onto a LIFO chain until a standard entry supplies the base (or
the walk falls off the end), then pops and applies each delta, the first-pushed
(target entry's) delta applied last.  On the spec's scenario store with on-disk
value "abc": resolve at 25 yields "xbc!", resolve at 30 yields "abc!", and
resolve at 5 is a clean miss (empty/invalid result). -/
theorem resolve_reverse_delta_chain :
    (∀ (store : List HSEntry) (btreeId : Nat) (key : Bytes) (readTs : Nat)
        (updIn : WTUpdateValue) (onDisk : Bytes) (e eb : HSEntry)
        (mods rest : List HSEntry) (ops : List WTModify) (v : Bytes),
        updIn.skipBuf = false →
        positionAtOrBefore (matchingEntries store btreeId key) (effectiveReadTs readTs)
          = some (e, mods ++ eb :: rest) →
        e.payload = HSPayload.modifyOps ops →
        (∀ m ∈ mods, m.payload.updType = WTUpdateType.modify) →
        eb.payload = HSPayload.standard v →
        (hs_find_upd okOracle store btreeId (some key) WT_RECNO_OOB readTs updIn
            onDisk).2.1.buf
          = some (squashStack v ((mods.map fun m => m.payload.opsOf).reverse ++ [ops])) ∧
        (hs_find_upd okOracle store btreeId (some key) WT_RECNO_OOB readTs updIn
            onDisk).2.1.type = WTUpdateType.standard) ∧
    (hs_find_upd okOracle scnStore 1 (some scnKey) WT_RECNO_OOB 25 uvResolveIn
        [97, 98, 99]).2.1.buf = some [120, 98, 99, 33] ∧
    (hs_find_upd okOracle scnStore 1 (some scnKey) WT_RECNO_OOB 30 uvResolveIn
        [97, 98, 99]).2.1.buf = some [97, 98, 99, 33] ∧
    (hs_find_upd okOracle scnStore 1 (some scnKey) WT_RECNO_OOB 5 uvResolveIn
        [97, 98, 99]).1 = 0 ∧
    (hs_find_upd okOracle scnStore 1 (some scnKey) WT_RECNO_OOB 5 uvResolveIn
        [97, 98, 99]).2.1.type = WTUpdateType.invalid ∧
    (hs_find_upd okOracle scnStore 1 (some scnKey) WT_RECNO_OOB 5 uvResolveIn
        [97, 98, 99]).2.1.buf = none := by
  refine ⟨?_, by decide, by decide, by decide, by decide, by decide⟩
  intro store btreeId key readTs updIn onDisk e eb mods rest ops v hskip hpos hops hmods hbv
  rw [resolve_store_base_uv store btreeId key readTs updIn onDisk e eb mods rest ops v
    hskip hpos hops hmods hbv]
  exact ⟨rfl, rfl⟩

/-- Concrete instance of claim C2's amended theorem: a modify at timestamp 20
resolved against the standard base at timestamp 30. -/
theorem resolve_reverse_delta_chain_witness :
    (hs_find_upd okOracle witStore 3 (some [7]) WT_RECNO_OOB 25 uvResolveIn []).2.1.buf
      = some (squashStack [97, 98]
          ((([] : List HSEntry).map fun m => m.payload.opsOf).reverse
            ++ [[⟨[120], 0, 1⟩]])) ∧
    (hs_find_upd okOracle witStore 3 (some [7]) WT_RECNO_OOB 25 uvResolveIn []).2.1.type
      = WTUpdateType.standard :=
  resolve_reverse_delta_chain.1 witStore 3 [7] 25 uvResolveIn []
    { btreeId := 3, key := [7], ts := 20, counter := 0, stopDurableTs := 0,
      durableTs := 20, payload := .modifyOps [⟨[120], 0, 1⟩] }
    { btreeId := 3, key := [7], ts := 30, counter := 0, stopDurableTs := 0,
      durableTs := 30, payload := .standard [97, 98] }
    [] [] [⟨[120], 0, 1⟩] [97, 98] (by decide) (by decide) (by decide) (by decide)
    (by decide)

/-- Claim C3: when the delta-chain walk advances past the last matching stored
entry without reaching a standard record, the caller's on-disk buffer is the
base value the pending deltas are applied to and the returned update kind is
Standard. -/
theorem resolve_fallback_uses_disk (store : List HSEntry) (btreeId : Nat) (key : Bytes)
    (readTs : Nat) (updIn : WTUpdateValue) (onDisk : Bytes) (e : HSEntry)
    (after : List HSEntry) (ops : List WTModify)
    (hskip : updIn.skipBuf = false)
    (hpos : positionAtOrBefore (matchingEntries store btreeId key) (effectiveReadTs readTs)
      = some (e, after))
    (hops : e.payload = HSPayload.modifyOps ops)
    (hall : ∀ m ∈ after, m.payload.updType = WTUpdateType.modify) :
    (hs_find_upd okOracle store btreeId (some key) WT_RECNO_OOB readTs updIn
        onDisk).2.1.type = WTUpdateType.standard ∧
    (hs_find_upd okOracle store btreeId (some key) WT_RECNO_OOB readTs updIn
        onDisk).2.1.buf
      = some (squashStack onDisk ((after.map fun m => m.payload.opsOf).reverse ++ [ops])) := by
  rw [resolve_fallback_uv store btreeId key readTs updIn onDisk e after ops
    hskip hpos hops hall]
  exact ⟨rfl, rfl⟩

/-- Concrete instance of claim C3's theorem: a store holding only modify
entries for the key resolves by applying both deltas to the on-disk value. -/
theorem resolve_fallback_uses_disk_witness :
    (hs_find_upd okOracle witStoreAllModify 4 (some [8]) WT_RECNO_OOB 25 uvResolveIn
        [97, 98]).2.1.type = WTUpdateType.standard ∧
    (hs_find_upd okOracle witStoreAllModify 4 (some [8]) WT_RECNO_OOB 25 uvResolveIn
        [97, 98]).2.1.buf
      = some (squashStack [97, 98]
          ((([({ btreeId := 4, key := [8], ts := 30, counter := 0, stopDurableTs := 0,
                 durableTs := 30,
                 payload := HSPayload.modifyOps [⟨[33], 2, 0⟩] } : HSEntry)]).map
              fun m => m.payload.opsOf).reverse ++ [[⟨[120], 0, 1⟩]])) :=
  resolve_fallback_uses_disk witStoreAllModify 4 [8] 25 uvResolveIn [97, 98]
    { btreeId := 4, key := [8], ts := 20, counter := 0, stopDurableTs := 0,
      durableTs := 20, payload := .modifyOps [⟨[120], 0, 1⟩] }
    [{ btreeId := 4, key := [8], ts := 30, counter := 0, stopDurableTs := 0,
       durableTs := 30, payload := .modifyOps [⟨[33], 2, 0⟩] }]
    [⟨[120], 0, 1⟩] (by decide) (by decide) (by decide) (by decide)

/-- Claim C6: a resolve call with `skip_buf` set that finds a history entry
returns an absent payload — no delta-chain node is allocated and the walk never
runs — while still reporting the found entry's durable timestamp and update
kind. -/
theorem resolve_skip_payload (store : List HSEntry) (btreeId : Nat) (key : Bytes)
    (readTs : Nat) (updIn : WTUpdateValue) (onDisk : Bytes) (e : HSEntry)
    (after : List HSEntry)
    (hskip : updIn.skipBuf = true) (hbuf : updIn.buf = none)
    (hpos : positionAtOrBefore (matchingEntries store btreeId key) (effectiveReadTs readTs)
      = some (e, after)) :
    (hs_find_upd okOracle store btreeId (some key) WT_RECNO_OOB readTs updIn
        onDisk).2.1.buf = none ∧
    (hs_find_upd okOracle store btreeId (some key) WT_RECNO_OOB readTs updIn
        onDisk).2.1.durableStartTs = e.durableTs ∧
    (hs_find_upd okOracle store btreeId (some key) WT_RECNO_OOB readTs updIn
        onDisk).2.1.type = e.payload.updType ∧
    (hs_find_upd okOracle store btreeId (some key) WT_RECNO_OOB readTs updIn
        onDisk).1 = 0 ∧
    (hs_find_upd okOracle store btreeId (some key) WT_RECNO_OOB readTs updIn
        onDisk).2.2.chainAlloc = 0 ∧
    (hs_find_upd okOracle store btreeId (some key) WT_RECNO_OOB readTs updIn
        onDisk).2.2.walkFlagAtEntry = none := by
  unfold hs_find_upd
  simp only [okOracle, Bool.false_eq_true, if_false, effectiveKey]
  rw [hpos]
  try simp only
  rw [hskip]
  simp only [if_true]
  refine ⟨?_, ?_, ?_, ?_, ?_, ?_⟩
  · rw [finishCall_updValue]
    simp [hbuf]
  · rw [finishCall_updValue]
    simp
  · rw [finishCall_updValue]
    simp
  · exact finishCall_okOracle_ret _ _ _ _ _ _
  · rw [finishCall_chainAllocProj]
    decide
  · rw [finishCall_walkFlag]
    decide

/-- Concrete instance of claim C6's theorem: a skip-payload resolve of the
scenario store at read timestamp 25 reports the modify entry's metadata with no
payload. -/
theorem resolve_skip_payload_witness :
    (hs_find_upd okOracle scnStore 1 (some scnKey) WT_RECNO_OOB 25
        { uvResolveIn with skipBuf := true } [97, 98, 99]).2.1.buf = none ∧
    (hs_find_upd okOracle scnStore 1 (some scnKey) WT_RECNO_OOB 25
        { uvResolveIn with skipBuf := true } [97, 98, 99]).2.1.durableStartTs = 20 ∧
    (hs_find_upd okOracle scnStore 1 (some scnKey) WT_RECNO_OOB 25
        { uvResolveIn with skipBuf := true } [97, 98, 99]).2.1.type
      = HSPayload.updType (.modifyOps scnDelta1) ∧
    (hs_find_upd okOracle scnStore 1 (some scnKey) WT_RECNO_OOB 25
        { uvResolveIn with skipBuf := true } [97, 98, 99]).1 = 0 ∧
    (hs_find_upd okOracle scnStore 1 (some scnKey) WT_RECNO_OOB 25
        { uvResolveIn with skipBuf := true } [97, 98, 99]).2.2.chainAlloc = 0 ∧
    (hs_find_upd okOracle scnStore 1 (some scnKey) WT_RECNO_OOB 25
        { uvResolveIn with skipBuf := true } [97, 98, 99]).2.2.walkFlagAtEntry = none :=
  resolve_skip_payload scnStore 1 scnKey 25 { uvResolveIn with skipBuf := true }
    [97, 98, 99]
    { btreeId := 1, key := scnKey, ts := 20, counter := 0, stopDurableTs := 20,
      durableTs := 20, payload := .modifyOps scnDelta1 }
    [{ btreeId := 1, key := scnKey, ts := 30, counter := 0, stopDurableTs := 30,
       durableTs := 30, payload := .modifyOps scnDelta2 }]
    (by decide) (by decide) (by decide)

theorem tsCntLt_trans {a e c : HSEntry} (h1 : tsCntLt a e) (h2 : tsCntLt e c) :
    tsCntLt a c := by
  unfold tsCntLt at h1 h2 ⊢
  omega

theorem groupSorted_cons {a : HSEntry} {l : List HSEntry}
    (h : groupSorted (a :: l) = true) :
    groupSorted l = true ∧ ∀ y ∈ l, tsCntLt a y := by
  induction l generalizing a with
  | nil => exact ⟨rfl, by simp⟩
  | cons e t ih =>
    simp only [groupSorted, Bool.and_eq_true, decide_eq_true_eq] at h
    obtain ⟨hae, ht⟩ := h
    refine ⟨ht, ?_⟩
    intro y hy
    rcases List.mem_cons.mp hy with rfl | hyt
    · exact hae
    · exact tsCntLt_trans hae ((ih ht).2 y hyt)

theorem groupSorted_suffix {l1 l2 : List HSEntry}
    (h : groupSorted (l1 ++ l2) = true) : groupSorted l2 = true := by
  induction l1 with
  | nil => exact h
  | cons a t ih => exact ih (groupSorted_cons h).1

theorem positionAtOrBefore_decomp {l : List HSEntry} {ts : Nat} {e : HSEntry}
    {after : List HSEntry} (h : positionAtOrBefore l ts = some (e, after)) :
    ∃ pre, l = pre ++ e :: after := by
  induction l generalizing e after with
  | nil => simp [positionAtOrBefore] at h
  | cons x rest ih =>
    unfold positionAtOrBefore at h
    cases hrec : positionAtOrBefore rest ts with
    | some r =>
      rw [hrec] at h
      try simp only at h
      rw [h] at hrec
      obtain ⟨pre, hpre⟩ := ih hrec
      exact ⟨x :: pre, by rw [hpre]; rfl⟩
    | none =>
      rw [hrec] at h
      try simp only at h
      by_cases hle : entryLeTarget x ts = true
      · rw [if_pos hle] at h
        simp only [Option.some.injEq, Prod.mk.injEq] at h
        obtain ⟨h1, h2⟩ := h
        subst h1
        subst h2
        exact ⟨[], rfl⟩
      · rw [if_neg hle] at h
        exact Option.noConfusion h

theorem hs_find_upd_baseEntry (orc : Oracle) (store : List HSEntry) (btreeId : Nat)
    (key? : Option Bytes) (recno : Nat) (readTs : Nat) (updIn : WTUpdateValue)
    (onDisk : Bytes) (e b : HSEntry) (after : List HSEntry)
    (hpos : positionAtOrBefore (matchingEntries store btreeId (effectiveKey key? recno))
        (effectiveReadTs readTs) = some (e, after))
    (hbase : (hs_find_upd orc store btreeId key? recno readTs updIn
        onDisk).2.2.baseEntryFound = some b) :
    b ∈ after ∧ ∃ v, b.payload = HSPayload.standard v := by
  unfold hs_find_upd at hbase
  simp only [] at hbase
  split at hbase
  · rw [finishCall_baseEntryFound] at hbase
    exact Option.noConfusion hbase
  · split at hbase
    · rw [finishCall_baseEntryFound] at hbase
      exact Option.noConfusion hbase
    · split at hbase
      · rename_i hnone
        rw [hpos] at hnone
        exact Option.noConfusion hnone
      · rename_i e2 after2 hsome
        rw [hpos] at hsome
        simp only [Option.some.injEq, Prod.mk.injEq] at hsome
        obtain ⟨he, ha⟩ := hsome
        subst he
        subst ha
        split at hbase
        · rw [finishCall_baseEntryFound] at hbase
          exact Option.noConfusion hbase
        · split at hbase
          · rw [finishCall_baseEntryFound] at hbase
            exact Option.noConfusion hbase
          · split at hbase
            · rw [finishCall_baseEntryFound] at hbase
              exact Option.noConfusion hbase
            · split at hbase
              · split at hbase
                · rw [finishCall_baseEntryFound] at hbase
                  exact Option.noConfusion hbase
                · rw [finishCall_baseEntryFound] at hbase
                  exact Option.noConfusion hbase
              · rename_i ops hpay
                split at hbase
                · rename_i code st7 hwalk
                  obtain ⟨hsp7, -, -⟩ := walkLoop_fail_state hwalk (by decide) (by decide)
                  rw [finishCall_baseEntryFound] at hbase
                  rw [hsp7.2.2.2.2.2.2.2] at hbase
                  exact Option.noConfusion hbase
                · rename_i base fd be stack st7 hwalk
                  obtain ⟨hsp7, hb7, hp7, hl7⟩ :=
                    walkLoop_ok_state hwalk (by decide) (by decide)
                  have hlive : st7.chainLive = stack.length + 0 :=
                    hl7.trans (show 0 + stack.length = stack.length + 0 by simp)
                  have hconc : be = some b →
                      b ∈ after ∧ ∃ v, b.payload = HSPayload.standard v := by
                    intro hbe
                    rcases walkLoop_baseEntry hwalk with hn | ⟨bb, v, hbb, hmem, hstd⟩
                    · rw [hn] at hbe
                      exact Option.noConfusion hbe
                    · rw [hbb] at hbe
                      simp only [Option.some.injEq] at hbe
                      subst hbe
                      exact ⟨hmem, v, hstd⟩
                  split at hbase
                  · rename_i code8 st8 happ
                    obtain ⟨hsp8, -, -⟩ := applyLoop_fail_state happ 0 hb7 hp7 hlive
                    rw [finishCall_baseEntryFound] at hbase
                    have h8 : st8.baseEntryFound = be := hsp8.2.2.2.2.2.2.2
                    exact hconc (h8.symm.trans hbase)
                  · rename_i v2 st8 happ
                    obtain ⟨hsp8, -, -, -, -⟩ := applyLoop_ok_state happ 0 hb7 hp7 hlive
                    split at hbase
                    · rw [finishCall_baseEntryFound] at hbase
                      have h8 : st8.step.baseEntryFound = be := hsp8.2.2.2.2.2.2.2
                      exact hconc (h8.symm.trans hbase)
                    · rw [finishCall_baseEntryFound] at hbase
                      have h8 : st8.step.baseEntryFound = be := hsp8.2.2.2.2.2.2.2
                      exact hconc (h8.symm.trans hbase)

/-- Claim C10: the delta-chain walk advances with next, toward larger encoded
keys — larger (timestamp, counter) pairs within one (table id, record key)
group — so whenever resolve reconstructs a modify from a store-provided
Standard base, that base entry lies strictly after the found entry in the
group's key order: the walk proceeds toward newer-keyed entries, not older
ones. -/
theorem resolve_walks_toward_newer (orc : Oracle) (store : List HSEntry) (btreeId : Nat)
    (key? : Option Bytes) (recno : Nat) (readTs : Nat) (updIn : WTUpdateValue)
    (onDisk : Bytes) (e b : HSEntry) (after : List HSEntry)
    (hsort : groupSorted (matchingEntries store btreeId (effectiveKey key? recno)) = true)
    (hpos : positionAtOrBefore (matchingEntries store btreeId (effectiveKey key? recno))
        (effectiveReadTs readTs) = some (e, after))
    (hbase : (hs_find_upd orc store btreeId key? recno readTs updIn
        onDisk).2.2.baseEntryFound = some b) :
    tsCntLt e b ∧ b.payload.updType = WTUpdateType.standard := by
  obtain ⟨hmem, v, hstd⟩ :=
    hs_find_upd_baseEntry orc store btreeId key? recno readTs updIn onDisk e b after
      hpos hbase
  obtain ⟨pre, hdecomp⟩ := positionAtOrBefore_decomp hpos
  have hsuff : groupSorted (e :: after) = true :=
    groupSorted_suffix (show groupSorted (pre ++ e :: after) = true from hdecomp ▸ hsort)
  refine ⟨(groupSorted_cons hsuff).2 b hmem, ?_⟩
  rw [hstd]
  rfl

/-- Concrete instance of claim C10's theorem: resolving the two-entry witness
store at read timestamp 25 finds the modify at timestamp 20 and reconstructs it
from the Standard base at timestamp 30, which lies strictly after it. -/
theorem resolve_walks_toward_newer_witness :
    tsCntLt
      { btreeId := 3, key := [7], ts := 20, counter := 0, stopDurableTs := 0,
        durableTs := 20, payload := .modifyOps [⟨[120], 0, 1⟩] }
      { btreeId := 3, key := [7], ts := 30, counter := 0, stopDurableTs := 0,
        durableTs := 30, payload := .standard [97, 98] } ∧
    HSPayload.updType
      (HSEntry.payload
        { btreeId := 3, key := [7], ts := 30, counter := 0, stopDurableTs := 0,
          durableTs := 30, payload := .standard [97, 98] })
      = WTUpdateType.standard :=
  resolve_walks_toward_newer okOracle witStore 3 (some [7]) WT_RECNO_OOB 25 uvResolveIn []
    { btreeId := 3, key := [7], ts := 20, counter := 0, stopDurableTs := 0,
      durableTs := 20, payload := .modifyOps [⟨[120], 0, 1⟩] }
    { btreeId := 3, key := [7], ts := 30, counter := 0, stopDurableTs := 0,
      durableTs := 30, payload := .standard [97, 98] }
    [{ btreeId := 3, key := [7], ts := 30, counter := 0, stopDurableTs := 0,
       durableTs := 30, payload := .standard [97, 98] }]
    (by decide) (by decide) (by decide)

end HS
